import Mathlib

/-!
# A shallow embedding of the ninja build-engine core (nico/ninja fork)

This file embeds, in Lean 4, the parts of the build engine that the
verified properties talk about:

* the graph model (`NodeData`, `EdgeData`) from `graph.h` / `graph.cc`;
* the build log (`LogEntry`, `recordCommand`, `lookupByOutput`,
  `openForWrite`, the v4 on-disk format writer and loader) from
  `build_log.cc`;
* the implicit-dependency loader and the dependency scanner
  (`loadDepFile`, `loadDepsFromLog`, `loadDeps`, `recomputeDirty`,
  `recomputeOutputDirty`) from `scan.h` and its implementation file;
* the plan (`addSubTarget`, `checkDependencyCycle`, `cleanNode`,
  `scheduleWork`) from `plan.h` / `plan.cc`;
* the manifest parser's reserved-rule-binding cycle check
  (`checkRuleBindingBfs`, `buildCycleMessage`) from `manifest_parser.cc`.

C++ pointer graphs are represented by dense integer ids (`Nat`) with the
state held in function-typed maps; mutation becomes explicit state
passing.  Unbounded C++ loops and recursions (the scanner's DFS, the
plan's DFS, the BFS of the rule-binding check) take an explicit fuel
parameter; `none` means the fuel ran out.  File-system access, the
depfile parser and path canonicalization are external collaborators of
the core (their implementations live outside the embedded sources) and
are supplied as oracle functions in a context record, so that theorems
quantify over their behaviour and witnesses instantiate them concretely.
-/

namespace Ninja

/-- Timestamps as used by the engine (`TimeStamp` is an integral type;
`-1` means not yet stat'ed, `0` means stat'ed and missing). -/
abbrev TimeStamp := Int

/-! ## Graph model (graph.h) -/

/-- The per-node state of `struct Node` (graph.h): canonical path,
mtime, dirty bit, the producing edge and the consuming edges.
`slash_bits` (display only) and the deps-log id are not represented;
no embedded property mentions them. -/
structure NodeData where
  path : String
  mtime : TimeStamp := -1
  dirty : Bool := false
  inEdge : Option Nat := none
  outEdges : List Nat := []
  deriving Repr, DecidableEq

/-- `Node::status_known()`: `mtime_ != -1`. -/
def NodeData.statusKnown (n : NodeData) : Bool := n.mtime != -1

/-- `Node::exists()`: `mtime_ != 0`. -/
def NodeData.existsOnDisk (n : NodeData) : Bool := n.mtime != 0

/-- The per-edge state of `struct Edge` (graph.h).  The results of the
binding lookups that the scanner performs (`GetBinding("deps")`,
`GetUnescapedDepfile()`, `GetBindingBool("restat")`,
`GetBindingBool("generator")`, `GetBinding("command")`,
`GetBinding("rspfile_content")`) are carried as fields: the variable
expansion machinery (`EdgeEnv`, `BindingEnv`, `EvalString`) always
yields the same string for the same edge during a scan, and none of the
embedded properties are about expansion itself. -/
structure EdgeData where
  isPhony : Bool := false
  command : String := ""
  rspfileContent : String := ""
  depsType : String := ""
  depfile : String := ""
  restat : Bool := false
  generator : Bool := false
  poolId : Nat := 0
  inputs : List Nat := []
  outputs : List Nat := []
  outputsReady : Bool := false
  depsMissing : Bool := false
  implicitDeps : Nat := 0
  orderOnlyDeps : Nat := 0
  deriving Repr, DecidableEq

/-- `Edge::is_order_only(index)`: `index >= inputs_.size() - order_only_deps_`. -/
def EdgeData.isOrderOnly (e : EdgeData) (index : Nat) : Bool :=
  index ≥ e.inputs.length - e.orderOnlyDeps

/-- `Edge::EvaluateCommand(incl_rsp_file)` (graph.cc): the expanded
command, with `";rspfile=" + rspfile_content` appended when requested
and the rspfile content is non-empty. -/
def evaluateCommand (inclRspFile : Bool) (e : EdgeData) : String :=
  let command := e.command
  if inclRspFile then
    if e.rspfileContent ≠ "" then command ++ (";rspfile=" ++ e.rspfileContent)
    else command
  else command

/-! ## Build log entries and in-memory log (build_log.cc) -/

/-- Modelled from the spec: `BuildLog::LogEntry::HashCommand` is declared
in `build_log.h`, which is not among the embedded sources.  The spec
fixes only that it is a 64-bit hash of the full expanded command; the
concrete mixing function below is a stand-in with the same shape
(deterministic, 64-bit range). -/
def hashCommand (s : String) : Nat :=
  (s.data.foldl (fun h c => h * 1099511628211 + c.toNat) 14695981039346656037) % 2 ^ 64

/-- One build-log entry (`BuildLog::LogEntry`): keyed by output path;
start/end times, restat mtime and the full expanded command.  The
`commandHash` field is modelled from the spec (the spec stores a 64-bit
hash of the command in the log and compares hashes for equality); it is
kept equal to `hashCommand command` by the operations below. -/
structure LogEntry where
  output : String
  startTime : Int := 0
  endTime : Int := 0
  restatMtime : TimeStamp := 0
  command : String := ""
  commandHash : Nat := 0
  deriving Repr, DecidableEq

/-- The in-memory log `BuildLog::log_`: a map keyed by output path,
represented as an association list with at most one entry per output. -/
abbrev BuildLogEntries := List LogEntry

/-- `BuildLog::LookupByOutput` (build_log.cc): constant-time (here
first-match) lookup by output path. -/
def lookupByOutput (log : BuildLogEntries) (path : String) : Option LogEntry :=
  log.find? (fun en => en.output = path)

/-- The upsert performed per output inside `BuildLog::RecordCommand`:
if an entry for the path exists, overwrite its payload, else insert a
new entry. -/
def upsertEntry (log : BuildLogEntries) (path : String) (command : String)
    (startTime endTime : Int) (restatMtime : TimeStamp) : BuildLogEntries :=
  let en : LogEntry :=
    { output := path, startTime := startTime, endTime := endTime,
      restatMtime := restatMtime, command := command,
      commandHash := hashCommand command }
  if (log.find? (fun e => e.output = path)).isSome then
    log.map (fun e => if e.output = path then en else e)
  else
    log ++ [en]

/-- `BuildLog::RecordCommand` (build_log.cc): evaluate the command once
(including rspfile content), then upsert one entry per output of the
edge.  The append to the open log file is the `writeLogFile` format
below; the in-memory effect is this function. -/
def recordCommand (nodes : Nat → NodeData) (log : BuildLogEntries)
    (edge : EdgeData) (startTime endTime : Int) (restatMtime : TimeStamp) :
    BuildLogEntries :=
  let command := evaluateCommand true edge
  edge.outputs.foldl
    (fun acc out => upsertEntry acc (nodes out).path command startTime endTime restatMtime)
    log

/-! ## Scanner context: external collaborators -/

/-- The deps-log query result `DepsLog::Deps`: recorded mtime and node
list (the deps log itself is an external collaborator; the scanner only
calls `GetDeps`). -/
structure DepsInfo where
  mtime : TimeStamp
  nodes : List Nat
  deriving Repr, DecidableEq

/-- The read-only collaborators a `DependencyScan` holds: the disk
interface (`Stat`, `ReadFile`), the deps log (`GetDeps`), the optional
build log, and the external depfile parser and path canonicalizer.
`diskRead` returns `(contents, err)`; a missing file reads as
`("", "")` (content empty, no error), which is what `LoadDepFile`
relies on. -/
structure ScanCtx where
  diskStat : String → TimeStamp
  diskRead : String → String × String
  depsLog : Nat → Option DepsInfo
  buildLog : Option BuildLogEntries
  parseDepfile : String → Except String (String × List String)
  canonPath : String → Except String String

/-- Lookup in the scanner's optional build log. -/
def ScanCtx.logLookup (ctx : ScanCtx) (path : String) : Option LogEntry :=
  ctx.buildLog.bind (fun log => lookupByOutput log path)

/-! ## The single-output dirtiness test (RecomputeOutputDirty) -/

/-- The command-change portion of `DependencyScan::RecomputeOutputDirty`
(the final block of the function): for a non-generator edge with a build
log, the output is dirty when there is no log entry for it or when the
stored command hash differs from the hash of the currently expanded
command. -/
def commandChangeDirty (ctx : ScanCtx) (edge : EdgeData) (command : String)
    (outputPath : String) : Bool :=
  if !edge.generator && ctx.buildLog.isSome then
    match ctx.logLookup outputPath with
    | some entry => hashCommand command != entry.commandHash
    | none => true
  else false

/-- The output-older-than-input portion of
`DependencyScan::RecomputeOutputDirty`: when the output's mtime is
behind the most recent input's, the output is dirty — unless the edge
is a restat rule with a logged `restat_mtime` that is still at least
the input's mtime. -/
def outputMtimeDirty (ctx : ScanCtx) (edge : EdgeData)
    (mostRecentInput : Option NodeData) (output : NodeData) : Bool :=
  match mostRecentInput with
  | none => false
  | some mri =>
    if output.mtime < mri.mtime then
      -- If this is a restat rule, the build log may hold the most
      -- recent input mtime of the previous run; use that instead.
      let outputMtime :=
        if edge.restat then
          match ctx.logLookup output.path with
          | some entry => entry.restatMtime
          | none => output.mtime
        else output.mtime
      decide (outputMtime < mri.mtime)
    else false

/-- `DependencyScan::RecomputeOutputDirty`: whether one output of an
edge is dirty, given the most recent input (as node data) and the
expanded command.  The C++ caches the log entry looked up by the restat
branch for reuse by the command branch; both branches query the same
map, so the cache is semantically transparent and both branches here
use `logLookup`. -/
def recomputeOutputDirty (ctx : ScanCtx) (edge : EdgeData)
    (mostRecentInput : Option NodeData) (command : String)
    (output : NodeData) : Bool :=
  if edge.isPhony then
    -- Phony edges don't write any output.  Outputs are only dirty if
    -- there are no inputs and we're missing the output.
    edge.inputs.isEmpty && !output.existsOnDisk
  else if !output.existsOnDisk then
    -- Dirty if we're missing the output.
    true
  else if outputMtimeDirty ctx edge mostRecentInput output then true
  else commandChangeDirty ctx edge command output.path

/-! ## Build log: dry-run open, and the on-disk v4 format -/

/-- The slice of `BuildConfig` (build.h) that `BuildLog` consults. -/
structure BuildConfigData where
  dryRun : Bool := false
  deriving Repr, DecidableEq

/-- The mutable state of a `BuildLog` object: the in-memory entries,
the recompaction flag set by `Load`, and the open file handle
(represented by the path it is open on). -/
structure BuildLogState where
  entries : BuildLogEntries := []
  needsRecompaction : Bool := false
  logFile : Option String := none
  deriving Repr, DecidableEq

/-- A file system for the log file: a map from path to contents
(characters), `none` when the file does not exist. -/
structure FileSys where
  files : String → Option (List Char)

/-- The v4 signature line `# ninja log v4\n` (kFileSignature with
kCurrentVersion). -/
def fileSignature : List Char := "# ninja log v4\n".data

/-- Render a natural number in decimal (digit list), with explicit fuel
so that the definition is structural; `renderNat` supplies enough. -/
def renderNatAux : Nat → Nat → List Char
  | 0, _ => []
  | fuel + 1, n =>
    if n < 10 then [Char.ofNat (48 + n)]
    else renderNatAux fuel (n / 10) ++ [Char.ofNat (48 + n % 10)]

/-- Decimal rendering of a natural number. -/
def renderNat (n : Nat) : List Char := renderNatAux (n + 1) n

/-- `fprintf`'s `%d` / `%ld` rendering of an integer. -/
def renderInt : Int → List Char
  | Int.ofNat n => renderNat n
  | Int.negSucc m => '-' :: renderNat (m + 1)

/-- `BuildLog::WriteEntry` (build_log.cc): one line,
`start\tend\trestat\toutput\tcommand\n`. -/
def renderEntry (en : LogEntry) : List Char :=
  renderInt en.startTime ++ '\t' :: renderInt en.endTime ++ '\t' ::
  renderInt en.restatMtime ++ '\t' :: en.output.data ++ '\t' ::
  en.command.data ++ ['\n']

/-- The file produced by writing the whole in-memory log behind the v4
signature, as `BuildLog::Recompact` does (signature first, then
`WriteEntry` per entry). -/
def writeLogFile (log : BuildLogEntries) : List Char :=
  fileSignature ++ (log.map renderEntry).flatten

/-- The body of an entry's line (everything before the terminating
newline of `renderEntry`). -/
def entryLineBody (en : LogEntry) : List Char :=
  renderInt en.startTime ++ '\t' :: renderInt en.endTime ++ '\t' ::
  renderInt en.restatMtime ++ '\t' :: en.output.data ++ '\t' ::
  en.command.data

/-- `BuildLog::OpenForWrite` (build_log.cc).  Returns
`(success, state, fs)`.  With `dry_run` set it does nothing and reports
success.  Otherwise: recompact first if flagged (write the surviving
entries to a `.recompact` sibling, unlink the original, rename), then
open for append (creating an empty file when absent) and write the
version signature when the file is empty. -/
def openForWrite (config : Option BuildConfigData) (bl : BuildLogState)
    (fs : FileSys) (path : String) : Bool × BuildLogState × FileSys :=
  if (config.map (fun c => c.dryRun)).getD false then
    (true, bl, fs)  -- Do nothing, report success.
  else
    let (bl, fs) :=
      if bl.needsRecompaction then
        -- Recompact: temp file, unlink, rename (net effect on the map).
        let content := writeLogFile bl.entries
        let fs1 : FileSys :=
          ⟨fun p => if p = path ++ ".recompact" then some content else fs.files p⟩
        let fs2 : FileSys :=
          ⟨fun p => if p = path then none else fs1.files p⟩
        let fs3 : FileSys :=
          ⟨fun p =>
            if p = path then some content
            else if p = path ++ ".recompact" then none
            else fs2.files p⟩
        ({ bl with needsRecompaction := false, logFile := none }, fs3)
      else (bl, fs)
    -- fopen(path, "ab"): create when absent, position at end.
    let existing := (fs.files path).getD []
    let fs :=
      ⟨fun p => if p = path then some existing else fs.files p⟩
    -- ftell == 0: write the signature.
    let fs :=
      if existing.isEmpty then
        ⟨fun p => if p = path then some fileSignature else FileSys.files fs p⟩
      else fs
    (true, { bl with logFile := some path }, fs)

/-! ## Build log: the loader (BuildLog::Load) -/

/-- Is a character an ASCII decimal digit. -/
def isDigitCh (c : Char) : Bool := 48 ≤ c.toNat && c.toNat ≤ 57

/-- Greedy digit scan with an accumulator (the digit-consuming loop
shared by `atoi`/`atol` and `sscanf`'s `%d`). -/
def scanDigits : Nat → List Char → Nat × List Char
  | acc, c :: cs =>
    if isDigitCh c then scanDigits (acc * 10 + (c.toNat - 48)) cs
    else (acc, c :: cs)
  | acc, [] => (acc, [])

/-- `%d` / `atoi` integer scan: skip leading blanks, optional sign,
then at least one digit; `none` when no digit follows. -/
def scanInt : List Char → Option (Int × List Char)
  | [] => none
  | c :: cs =>
    if c = ' ' || c = '\t' then scanInt cs
    else if c = '-' then
      match cs with
      | d :: _ =>
        if isDigitCh d then
          let (n, rest) := scanDigits 0 cs
          some (-(Int.ofNat n), rest)
        else none
      | [] => none
    else if c = '+' then
      match cs with
      | d :: _ =>
        if isDigitCh d then
          let (n, rest) := scanDigits 0 cs
          some (Int.ofNat n, rest)
        else none
      | [] => none
    else if isDigitCh c then
      let (n, rest) := scanDigits 0 (c :: cs)
      some (Int.ofNat n, rest)
    else none

/-- `atoi`/`atol`: scan an integer, defaulting to 0. -/
def atoiCh (l : List Char) : Int :=
  match scanInt l with
  | some (n, _) => n
  | none => 0

/-- Split off everything before the first occurrence of `sep`
(the `memchr(start, field_separator, ...)` step); `none` when the
separator does not occur. -/
def cutFirst (sep : Char) : List Char → Option (List Char × List Char)
  | [] => none
  | c :: cs =>
    if c = sep then some ([], cs)
    else (cutFirst sep cs).map (fun p => (c :: p.1, p.2))

/-- The loaded-file model: the loader consumes `\n`-terminated lines; a
final chunk without a newline is skipped (the reader's refill loop hits
end of file before finding a newline).  The fixed 256 KiB line buffer
of the C++ reader is idealized as unbounded. -/
def splitLinesAux : List Char → List Char → List (List Char)
  | _, [] => []
  | acc, c :: cs =>
    if c = '\n' then acc :: splitLinesAux [] cs
    else splitLinesAux (acc ++ [c]) cs

/-- Split file contents into `\n`-terminated lines (see `splitLinesAux`). -/
def splitLines (l : List Char) : List (List Char) := splitLinesAux [] l

/-- `sscanf(line, "# ninja log v%d", &version)`: the literal prefix
followed by an integer. -/
def parseSignature (l : List Char) : Option Int :=
  let sig := "# ninja log v".data
  if l.take sig.length = sig then
    (scanInt (l.drop sig.length)).map (fun p => p.1)
  else none

/-- Parse the payload of one log line at a given version: four
separator-delimited fields (start time, end time, restat mtime, output
path) and the command as the rest of the line.  `none` mirrors the
`continue` statements that skip a malformed line. -/
def parseLogLine (version : Int) (l : List Char) : Option LogEntry :=
  let sep : Char := if version ≥ 4 then '\t' else ' '
  match cutFirst sep l with
  | none => none
  | some (f1, r1) =>
    match cutFirst sep r1 with
    | none => none
    | some (f2, r2) =>
      match cutFirst sep r2 with
      | none => none
      | some (f3, r3) =>
        match cutFirst sep r3 with
        | none => none
        | some (f4, command) =>
          some { output := String.mk f4,
                 startTime := atoiCh f1,
                 endTime := atoiCh f2,
                 restatMtime := atoiCh f3,
                 command := String.mk command,
                 commandHash := hashCommand (String.mk command) }

/-- One upsert into the loading map, tracking the unique/total entry
counts used by the compaction decision. -/
def loadUpsert (acc : BuildLogEntries × Nat × Nat) (en : LogEntry) :
    BuildLogEntries × Nat × Nat :=
  let (log, unique, total) := acc
  if (log.find? (fun e => e.output = en.output)).isSome then
    (log.map (fun e => if e.output = en.output then en else e), unique, total + 1)
  else
    (log ++ [en], unique + 1, total + 1)

/-- The line-processing loop of `BuildLog::Load`: the first line is
sniffed for the version signature (defaulting to version 1 and parsing
the line as an entry if the signature does not match); every later line
is split at the version's field separator and upserted. -/
def loadLines : List (List Char) → Int → (BuildLogEntries × Nat × Nat) →
    Int × (BuildLogEntries × Nat × Nat)
  | [], version, acc => (version, acc)
  | l :: ls, version, acc =>
    if version = 0 then
      match parseSignature l with
      | some v => loadLines ls v acc
      | none =>
        match parseLogLine 1 l with
        | some en => loadLines ls 1 (loadUpsert acc en)
        | none => loadLines ls 1 acc
    else
      match parseLogLine version l with
      | some en => loadLines ls version (loadUpsert acc en)
      | none => loadLines ls version acc

/-- `BuildLog::Load` applied to file contents: parse all lines, then
decide recompaction (version upgrade, or more than 100 total entries
with total exceeding three times unique). -/
def loadLog (contents : List Char) : BuildLogEntries × Bool :=
  let (version, log, unique, total) := loadLines (splitLines contents) 0 ([], 0, 0)
  let needsRecompaction :=
    if version < 4 then true
    else if total > 100 && total > unique * 3 then true
    else false
  (log, needsRecompaction)

/-! ## The mutable graph state of a scan -/

/-- The arena owning all nodes and edges (the `State` object plus the
mutable fields of nodes and edges).  `pathIds` interns canonical paths
(`State::GetNode`); ids `≥ nodeCount` / `≥ edgeCount` are unused. -/
@[ext]
structure ScanState where
  nodes : Nat → NodeData
  nodeCount : Nat
  pathIds : String → Option Nat
  edges : Nat → EdgeData
  edgeCount : Nat

/-- Replace one node. -/
def ScanState.setNode (st : ScanState) (i : Nat) (d : NodeData) : ScanState :=
  { st with nodes := fun j => if j = i then d else st.nodes j }

/-- Replace one edge. -/
def ScanState.setEdge (st : ScanState) (i : Nat) (d : EdgeData) : ScanState :=
  { st with edges := fun j => if j = i then d else st.edges j }

/-- `Node::Stat` (graph.cc): record the disk interface's answer as the
node's mtime. -/
def statNode (ctx : ScanCtx) (st : ScanState) (i : Nat) : ScanState :=
  st.setNode i { st.nodes i with mtime := ctx.diskStat (st.nodes i).path }

/-- `Node::StatIfNecessary` (graph.h): stat when the status is unknown;
the returned `Bool` is true when a stat was needed. -/
def statIfNecessary (ctx : ScanCtx) (st : ScanState) (i : Nat) :
    Bool × ScanState :=
  if (st.nodes i).statusKnown then (false, st)
  else (true, statNode ctx st i)

/-- Modelled from the spec: `State::GetNode` (state.cc is not among the
embedded sources) interns nodes by canonical path — an existing node is
returned, otherwise a fresh one (not yet stat'ed, clean, no producing
edge) is created.  The backslash bits are display-only and dropped. -/
def getNode (st : ScanState) (path : String) : Nat × ScanState :=
  match st.pathIds path with
  | some i => (i, st)
  | none =>
    let i := st.nodeCount
    let st :=
      { st with
        nodes := fun j => if j = i then { path := path } else st.nodes j,
        nodeCount := i + 1,
        pathIds := fun p => if p = path then some i else st.pathIds p }
    (i, st)

/-- `Node::AddOutEdge`. -/
def addOutEdge (st : ScanState) (i : Nat) (eid : Nat) : ScanState :=
  st.setNode i { st.nodes i with outEdges := (st.nodes i).outEdges ++ [eid] }

/-- `ImplicitDepLoader::CreatePhonyInEdge`: when the node has no
producing edge, synthesize a phony edge with the node as sole output
and `outputs_ready_ = true` (`State::AddEdge` with the phony rule is
modelled from the spec as arena allocation of a fresh edge). -/
def createPhonyInEdge (st : ScanState) (i : Nat) : ScanState :=
  if (st.nodes i).inEdge.isSome then st
  else
    let eid := st.edgeCount
    let phony : EdgeData := { isPhony := true, outputs := [i], outputsReady := true }
    { st with
      edges := fun j => if j = eid then phony else st.edges j,
      edgeCount := eid + 1,
      nodes := fun j =>
        if j = i then { st.nodes i with inEdge := some eid } else st.nodes j }

/-- `ImplicitDepLoader::PreallocateSpace` plus the fill loop: the new
implicit deps are inserted into the input list just before the
order-only segment, and the implicit-deps count grows.  (The C++
preallocates null slots and fills them one by one; only the state after
a successful fill is observable to the properties embedded here.) -/
def insertImplicitDeps (st : ScanState) (eid : Nat) (deps : List Nat) : ScanState :=
  let e := st.edges eid
  let keep := e.inputs.length - e.orderOnlyDeps
  st.setEdge eid
    { e with
      inputs := e.inputs.take keep ++ deps ++ e.inputs.drop keep,
      implicitDeps := e.implicitDeps + deps.length }

/-- The per-dep work of `LoadDepFile`'s fill loop: canonicalize the
path, intern the node, register the edge as a consumer and synthesize a
phony in-edge if needed. -/
def resolveDepPaths (ctx : ScanCtx) (eid : Nat) :
    ScanState → List String → Except String (ScanState × List Nat)
  | st, [] => Except.ok (st, [])
  | st, p :: ps =>
    match ctx.canonPath p with
    | Except.error e => Except.error e
    | Except.ok cp =>
      let (nid, st) := getNode st cp
      let st := addOutEdge st nid eid
      let st := createPhonyInEdge st nid
      match resolveDepPaths ctx eid st ps with
      | Except.error e => Except.error e
      | Except.ok (st, rest) => Except.ok (st, nid :: rest)

/-- The registration loop of `LoadDepsFromLog`: the deps-log nodes
already exist; register the edge as a consumer and synthesize phony
in-edges where needed. -/
def registerLogDeps (eid : Nat) : ScanState → List Nat → ScanState
  | st, [] => st
  | st, n :: ns => registerLogDeps eid (createPhonyInEdge (addOutEdge st n eid) n) ns

/-- `ImplicitDepLoader::LoadDepFile`: read the depfile (missing reads
as empty content with no error — recoverable), parse it, canonicalize
and match the output token against the edge's first output, then append
the inputs as implicit deps.  Returns `(ok, err, state)`. -/
def loadDepFile (ctx : ScanCtx) (st : ScanState) (eid : Nat) (path : String) :
    Bool × String × ScanState :=
  let (content, err) := ctx.diskRead path
  if err ≠ "" then (false, "loading '" ++ path ++ "': " ++ err, st)
  else if content = "" then
    -- On a missing depfile: return false and empty err.
    (false, "", st)
  else
    match ctx.parseDepfile content with
    | Except.error depfileErr => (false, path ++ ": " ++ depfileErr, st)
    | Except.ok (outToken, ins) =>
      match ctx.canonPath outToken with
      | Except.error canonErr => (false, canonErr, st)
      | Except.ok outCanon =>
        -- Check that this depfile matches the edge's output.
        let firstOutput := (st.edges eid).outputs.headD 0
        let opath := (st.nodes firstOutput).path
        if opath ≠ outCanon then
          (false,
           "expected depfile '" ++ path ++ "' to mention '" ++ opath ++
             "', got '" ++ outCanon ++ "'",
           st)
        else
          match resolveDepPaths ctx eid st ins with
          | Except.error e => (false, e, st)
          | Except.ok (st, nids) => (true, "", insertImplicitDeps st eid nids)

/-- `ImplicitDepLoader::LoadDepsFromLog`: query the deps log for the
first output; a missing entry, or stored deps older than the output
(`output->mtime() > deps->mtime`), is recoverable (`(false, "")`);
otherwise splice the recorded nodes in as implicit deps. -/
def loadDepsFromLog (ctx : ScanCtx) (st : ScanState) (eid : Nat) :
    Bool × String × ScanState :=
  let output := (st.edges eid).outputs.headD 0
  match ctx.depsLog output with
  | none => (false, "", st)
  | some deps =>
    if (st.nodes output).mtime > deps.mtime then (false, "", st)
    else
      let st := registerLogDeps eid st deps.nodes
      (true, "", insertImplicitDeps st eid deps.nodes)

/-- `ImplicitDepLoader::LoadDeps`: the `deps` attribute takes priority
over `depfile`; with neither there is nothing to load. -/
def loadDeps (ctx : ScanCtx) (st : ScanState) (eid : Nat) :
    Bool × String × ScanState :=
  let e := st.edges eid
  if e.depsType ≠ "" then loadDepsFromLog ctx st eid
  else if e.depfile ≠ "" then loadDepFile ctx st eid e.depfile
  else (true, "", st)

/-- The per-output loop of `DependencyScan::RecomputeOutputsDirty`:
stat each output and test it; the first dirty output short-circuits
(later outputs are not stat'ed here, the caller's final loop stats
them). -/
def outputsDirtyGo (ctx : ScanCtx) (eid : Nat) (mostRecentInput : Option Nat)
    (command : String) : List Nat → ScanState → Bool × ScanState
  | [], st => (false, st)
  | o :: os, st =>
    let (_, st) := statIfNecessary ctx st o
    if recomputeOutputDirty ctx (st.edges eid)
        (mostRecentInput.map (fun m => st.nodes m)) command (st.nodes o) then
      (true, st)
    else outputsDirtyGo ctx eid mostRecentInput command os st

/-- `DependencyScan::RecomputeOutputsDirty`: evaluate the command once,
then run the per-output loop over the edge's outputs. -/
def recomputeOutputsDirtySt (ctx : ScanCtx) (st : ScanState) (eid : Nat)
    (mostRecentInput : Option Nat) : Bool × ScanState :=
  outputsDirtyGo ctx eid mostRecentInput (evaluateCommand true (st.edges eid))
    (st.edges eid).outputs st

/-- The final output loop of `RecomputeDirty`: stat every output (first
time only) and, when the edge is dirty, mark each output dirty. -/
def markOutputs (ctx : ScanCtx) : List Nat → Bool → ScanState → ScanState
  | [], _, st => st
  | o :: os, dirty, st =>
    let (_, st) := statIfNecessary ctx st o
    let st :=
      if dirty then st.setNode o { st.nodes o with dirty := true } else st
    markOutputs ctx os dirty st

/-- The result of `DependencyScan::RecomputeDirty`: the returned
boolean, the error string, and the state. -/
structure ScanRes where
  ok : Bool
  err : String
  st : ScanState

/-- The running accumulator of the input loop of `RecomputeDirty`. -/
structure LoopRes where
  ok : Bool
  err : String
  dirty : Bool
  mri : Option Nat
  st : ScanState

mutual

/-- `DependencyScan::RecomputeDirty`: reset the edge's flags, load
implicit deps (a recoverable failure marks the edge dirty and
`deps_missing`), walk the inputs (statting fresh nodes and recursing
into their producing edges), fall back to the output-state test, stat
and possibly mark each output, and finally clear `outputs_ready_` for
a dirty non-trivial edge.  `fuel` bounds the recursion depth; `none`
means it ran out. -/
def recomputeDirty (ctx : ScanCtx) : Nat → Nat → ScanState → Option ScanRes
  | 0, _, _ => none
  | fuel + 1, eid, st =>
    let st1 := st.setEdge eid
      { st.edges eid with outputsReady := true, depsMissing := false }
    match loadDeps ctx st1 eid with
    | (ok, err, st2) =>
      if !ok && err ≠ "" then
        some { ok := false, err := err, st := st2 }
      else
        -- Failed to load dependency info: rebuild to regenerate it.
        let dirty0 := !ok
        let st3 :=
          if !ok then st2.setEdge eid { st2.edges eid with depsMissing := true }
          else st2
        match scanInputs ctx fuel eid (st3.edges eid).inputs 0 dirty0 none st3 with
        | none => none
        | some r =>
          if !r.ok then
            some { ok := false, err := r.err, st := r.st }
          else
            match
              (if !r.dirty then recomputeOutputsDirtySt ctx r.st eid r.mri
               else (r.dirty, r.st)) with
            | (dirty, st4) =>
              let st5 := markOutputs ctx (st4.edges eid).outputs dirty st4
              let st6 :=
                if dirty &&
                    !((st5.edges eid).isPhony && (st5.edges eid).inputs.isEmpty) then
                  st5.setEdge eid { st5.edges eid with outputsReady := false }
                else st5
              some { ok := true, err := "", st := st6 }

/-- The input loop of `RecomputeDirty` (one call per input, carrying
the input's position for the order-only test): a freshly stat'ed input
either recurses into its producing edge or records missing-file
dirtiness; a not-ready producing edge clears the scanned edge's
`outputs_ready_`; non-order-only inputs contribute dirtiness or the
most-recent-input maximum.  One unit of fuel is consumed per
iteration, keeping the mutual recursion structural on fuel. -/
def scanInputs (ctx : ScanCtx) :
    Nat → Nat → List Nat → Nat → Bool → Option Nat → ScanState → Option LoopRes
  | _, _, [], _, dirty, mri, st =>
    some { ok := true, err := "", dirty := dirty, mri := mri, st := st }
  | 0, _, _ :: _, _, _, _, _ => none
  | fuel + 1, eid, nid :: rest, idx, dirty, mri, st =>
    match statIfNecessary ctx st nid with
    | (fresh, stA) =>
      let step : Option (Bool × String × ScanState) :=
        if fresh then
          match (stA.nodes nid).inEdge with
          | some inEdge =>
            match recomputeDirty ctx fuel inEdge stA with
            | none => none
            | some r => some (r.ok, r.err, r.st)
          | none =>
            -- This input has no in-edge; it is dirty if it is missing.
            let n := stA.nodes nid
            some (true, "", stA.setNode nid { n with dirty := !n.existsOnDisk })
        else some (true, "", stA)
      match step with
      | none => none
      | some (ok, err, stB) =>
        if !ok then
          some { ok := false, err := err, dirty := dirty, mri := mri, st := stB }
        else
          -- If an input is not ready, neither are our outputs.
          let stC :=
            match (stB.nodes nid).inEdge with
            | some inEdge =>
              if !(stB.edges inEdge).outputsReady then
                stB.setEdge eid { stB.edges eid with outputsReady := false }
              else stB
            | none => stB
          let acc :=
            if !(stC.edges eid).isOrderOnly idx then
              if (stC.nodes nid).dirty then (true, mri)
              else
                match mri with
                | none => (dirty, some nid)
                | some m =>
                  if (stC.nodes nid).mtime > (stC.nodes m).mtime then
                    (dirty, some nid)
                  else (dirty, mri)
            else (dirty, mri)
          scanInputs ctx fuel eid rest (idx + 1) acc.1 acc.2 stC

end

/-! ## Plan (plan.h / plan.cc) -/

/-- A `Pool` (graph/state): depth, current use and the FIFO of delayed
edges.  The pool method bodies live in the un-embedded `state.cc`; they
are modelled from the spec (§4.6). -/
structure PoolData where
  depth : Nat := 0
  currentUse : Nat := 0
  delayed : List Nat := []
  deriving Repr, DecidableEq

/-- Modelled from the spec: `Pool::ShouldDelayEdge` returns true iff
the pool has a positive depth (the unlimited default pool never
delays). -/
def shouldDelayEdge (p : PoolData) : Bool := p.depth > 0

/-- Modelled from the spec: `Pool::EdgeScheduled` adjusts the current
use count upward. -/
def edgeScheduled (p : PoolData) : PoolData := { p with currentUse := p.currentUse + 1 }

/-- Insert into the ready set (a `std::set`; only membership and
emptiness are observable to the embedded properties). -/
def insertReady (ready : List Nat) (e : Nat) : List Nat :=
  if e ∈ ready then ready else ready ++ [e]

/-- Modelled from the spec: `Pool::RetrieveReadyEdges` moves edges from
the head of the delay FIFO into the ready set until the pool's capacity
is reached, adjusting the use count. -/
def retrieveReadyEdges (p : PoolData) (ready : List Nat) : PoolData × List Nat :=
  go p.delayed p.currentUse ready
where
  go : List Nat → Nat → List Nat → PoolData × List Nat
    | [], use, ready => ({ p with delayed := [], currentUse := use }, ready)
    | e :: rest, use, ready =>
      if use < p.depth then go rest (use + 1) (insertReady ready e)
      else ({ p with delayed := e :: rest, currentUse := use }, ready)

/-- The state of a `Plan`: the want map (association list keyed by
edge), the ready set, the two counters, and the pools. -/
structure PlanState where
  want : List (Nat × Bool)
  ready : List Nat
  commandEdges : Int
  wantedEdges : Int
  pools : Nat → PoolData

/-- Lookup in the want map. -/
def wantLookup (ps : PlanState) (e : Nat) : Option Bool :=
  (ps.want.find? (fun p => p.1 = e)).map (fun p => p.2)

/-- Overwrite an existing want entry. -/
def wantSet (ps : PlanState) (e : Nat) (b : Bool) : PlanState :=
  { ps with want := ps.want.map (fun p => if p.1 = e then (e, b) else p) }

/-- `want_.insert(make_pair(edge, false))`: returns the (possibly
pre-existing) mapped value and whether an insertion happened. -/
def wantInsert (ps : PlanState) (e : Nat) : PlanState × Bool × Bool :=
  match wantLookup ps e with
  | some b => (ps, b, false)
  | none => ({ ps with want := ps.want ++ [(e, false)] }, false, true)

/-- `Edge::AllInputsReady` (graph.cc): every input with a producing
edge has that edge's outputs ready. -/
def allInputsReady (st : ScanState) (eid : Nat) : Bool :=
  (st.edges eid).inputs.all (fun n =>
    match (st.nodes n).inEdge with
    | some f => (st.edges f).outputsReady
    | none => true)

/-- `Plan::ScheduleWork` (plan.cc): a pool that delays parks the edge
in the FIFO (ignoring duplicate schedule requests already in the ready
set) and drains what fits; otherwise the edge is scheduled directly. -/
def scheduleWork (st : ScanState) (ps : PlanState) (eid : Nat) : PlanState :=
  let poolId := (st.edges eid).poolId
  let pool := ps.pools poolId
  if shouldDelayEdge pool then
    if eid ∈ ps.ready then ps
    else
      let pool := { pool with delayed := pool.delayed ++ [eid] }
      let (pool, ready) := retrieveReadyEdges pool ps.ready
      { ps with ready := ready,
                pools := fun j => if j = poolId then pool else ps.pools j }
  else
    let pool := edgeScheduled pool
    { ps with ready := insertReady ps.ready eid,
              pools := fun j => if j = poolId then pool else ps.pools j }

/-- `Plan::CheckDependencyCycle` (plan.cc): when the node lies on the
recursion stack, push it again and report the cycle as the stack slice
from its first occurrence, " -> "-separated.  Returns
`(found, err, stack)`. -/
def checkDependencyCycle (st : ScanState) (nid : Nat) (stack : List Nat) :
    Bool × String × List Nat :=
  if nid ∈ stack then
    let stack2 := stack ++ [nid]
    let start := stack2.indexOf nid
    (true,
     "dependency cycle: " ++
       String.intercalate " -> " ((stack2.drop start).map (fun n => (st.nodes n).path)),
     stack2)
  else (false, "", stack)

mutual

/-- `Plan::AddSubTarget` (plan.cc): a dirty leaf is an error; a node on
the stack is a dependency cycle; an edge with ready outputs needs
nothing; otherwise record the edge in the want map (promoting it to
wanted when the node is dirty, bumping the counters and scheduling it
when its inputs are ready) and, on first encounter, recurse over the
edge's inputs.  Returns `(ok, err, plan, stack)`. -/
def addSubTarget (st : ScanState) :
    Nat → Nat → List Nat → PlanState → Option (Bool × String × PlanState × List Nat)
  | 0, _, _, _ => none
  | fuel + 1, nid, stack, ps =>
    let node := st.nodes nid
    match node.inEdge with
    | none =>  -- Leaf node.
      if node.dirty then
        let referenced :=
          match stack.getLast? with
          | some top => ", needed by '" ++ (st.nodes top).path ++ "',"
          | none => ""
        some (false,
              "'" ++ node.path ++ "'" ++ referenced ++
                " missing and no known rule to make it",
              ps, stack)
      else some (false, "", ps, stack)
    | some eid =>
      let (found, cycErr, stack) := checkDependencyCycle st nid stack
      if found then some (false, cycErr, ps, stack)
      else if (st.edges eid).outputsReady then
        some (false, "", ps, stack)  -- Don't need to do anything.
      else
        let (ps, wantVal, inserted) := wantInsert ps eid
        let ps :=
          if node.dirty && !wantVal then
            let ps := wantSet ps eid true
            let ps := { ps with wantedEdges := ps.wantedEdges + 1 }
            let ps := if allInputsReady st eid then scheduleWork st ps eid else ps
            if !(st.edges eid).isPhony then
              { ps with commandEdges := ps.commandEdges + 1 }
            else ps
          else ps
        if !inserted then some (true, "", ps, stack)  -- Already processed the inputs.
        else
          match addSubInputs st fuel (st.edges eid).inputs (stack ++ [nid]) ps with
          | none => none
          | some (ok, err, ps, stack) =>
            if !ok then some (false, err, ps, stack)
            else some (true, "", ps, stack.dropLast)

/-- The input loop of `AddSubTarget`: recurse per input, aborting only
when a recursive call fails with a non-empty error. -/
def addSubInputs (st : ScanState) :
    Nat → List Nat → List Nat → PlanState → Option (Bool × String × PlanState × List Nat)
  | _, [], stack, ps => some (true, "", ps, stack)
  | 0, _ :: _, _, _ => none
  | fuel + 1, i :: rest, stack, ps =>
    match addSubTarget st fuel i stack ps with
    | none => none
    | some (ok, err, ps, stack) =>
      if !ok && err ≠ "" then some (false, err, ps, stack)
      else addSubInputs st fuel rest stack ps

end

/-- `Plan::AddTarget`: `AddSubTarget` from an empty stack. -/
def addTarget (st : ScanState) (fuel : Nat) (nid : Nat) (ps : PlanState) :
    Option (Bool × String × PlanState × List Nat) :=
  addSubTarget st fuel nid [] ps

/-- The `most_recent_input` recomputation inside `Plan::CleanNode`:
first maximum by mtime. -/
def firstMaxMtime (st : ScanState) (l : List Nat) : Option Nat :=
  l.foldl
    (fun acc n =>
      match acc with
      | none => some n
      | some m => if (st.nodes n).mtime > (st.nodes m).mtime then some n else acc)
    none

mutual

/-- `Plan::CleanNode` (plan.cc): mark the node clean, then examine each
consumer edge that is wanted-true and did not fail to load deps; when
all its non-order-only inputs are clean and its outputs are no longer
dirty, recursively clean the outputs and demote the edge from wanted,
decrementing the counters. -/
def cleanNode (ctx : ScanCtx) :
    Nat → Nat → PlanState → ScanState → Option (PlanState × ScanState)
  | 0, _, _, _ => none
  | fuel + 1, nid, ps, st =>
    let st := st.setNode nid { st.nodes nid with dirty := false }
    cleanEdges ctx fuel (st.nodes nid).outEdges ps st

/-- The consumer-edge loop of `CleanNode`. -/
def cleanEdges (ctx : ScanCtx) :
    Nat → List Nat → PlanState → ScanState → Option (PlanState × ScanState)
  | _, [], ps, st => some (ps, st)
  | 0, _ :: _, _, _ => none
  | fuel + 1, ei :: rest, ps, st =>
    if wantLookup ps ei ≠ some true then
      -- Don't process edges that we don't actually want.
      cleanEdges ctx fuel rest ps st
    else if (st.edges ei).depsMissing then
      -- Don't attempt to clean an edge if it failed to load deps.
      cleanEdges ctx fuel rest ps st
    else
      let e := st.edges ei
      let nonOrderOnly := e.inputs.take (e.inputs.length - e.orderOnlyDeps)
      if nonOrderOnly.all (fun n => !(st.nodes n).dirty) then
        let mri := firstMaxMtime st nonOrderOnly
        let (outsDirty, st) := recomputeOutputsDirtySt ctx st ei mri
        if !outsDirty then
          match cleanOutputs ctx fuel (st.edges ei).outputs ps st with
          | none => none
          | some (ps, st) =>
            let ps := wantSet ps ei false
            let ps := { ps with wantedEdges := ps.wantedEdges - 1 }
            let ps :=
              if !(st.edges ei).isPhony then
                { ps with commandEdges := ps.commandEdges - 1 }
              else ps
            cleanEdges ctx fuel rest ps st
        else cleanEdges ctx fuel rest ps st
      else cleanEdges ctx fuel rest ps st

/-- The output loop of `CleanNode`'s demotion branch: recursively clean
each output. -/
def cleanOutputs (ctx : ScanCtx) :
    Nat → List Nat → PlanState → ScanState → Option (PlanState × ScanState)
  | _, [], ps, st => some (ps, st)
  | 0, _ :: _, _, _ => none
  | fuel + 1, o :: os, ps, st =>
    match cleanNode ctx fuel o ps st with
    | none => none
    | some (ps, st) => cleanOutputs ctx fuel os ps st

end

/-! ## The manifest parser's reserved-binding cycle check
(manifest_parser.cc, ManifestParser::CheckRuleBindingDependencyCycle) -/

/-- One token of an `EvalString`: a literal slice or a variable
reference. -/
inductive EvalTok where
  | lit (s : String)
  | varref (v : String)
  deriving Repr, DecidableEq

/-- `Rule::IsReservedBinding` (graph.cc). -/
def isReservedBinding (v : String) : Bool :=
  v = "command" || v = "depfile" || v = "description" || v = "deps" ||
  v = "generator" || v = "pool" || v = "restat" || v = "rspfile" ||
  v = "rspfile_content"

/-- Lexicographic character-list comparison (the order of
`std::string::operator<`, which `std::set<string>` sorts by). -/
def charListLt : List Char → List Char → Bool
  | [], [] => false
  | [], _ :: _ => true
  | _ :: _, [] => false
  | a :: as, b :: bs =>
    if a.toNat < b.toNat then true
    else if b.toNat < a.toNat then false
    else charListLt as bs

/-- String comparison by character data. -/
def strLt (a b : String) : Bool := charListLt a.data b.data

/-- Sorted-set insertion (`std::set<string>::insert`). -/
def insertSorted (s : String) : List String → List String
  | [] => [s]
  | x :: xs =>
    if strLt s x then s :: x :: xs
    else if s = x then x :: xs
    else x :: insertSorted s xs

/-- The collector `Env` of `CheckRuleBindingDependencyCycle`: evaluate
the binding value against an environment that records every reserved
name referenced (a sorted set, matching `std::set` iteration order). -/
def collectReserved (value : List EvalTok) : List String :=
  value.foldl
    (fun acc t =>
      match t with
      | EvalTok.lit _ => acc
      | EvalTok.varref v => if isReservedBinding v then insertSorted v acc else acc)
    []

/-- The BFS worklist loop of `CheckRuleBindingDependencyCycle`: pop the
queue front; a node popped twice reports a cycle at that node (with the
`prev` map as built so far); otherwise its recorded references are
pushed, each with `prev` set to the popped node.  The C++ loop is
unbounded; `fuel` bounds it here and `none` means it was exhausted. -/
def bfsDetect (refs : String → Option (List String)) :
    Nat → List String → List String → (String → Option String) →
    Option (Option (String × (String → Option String)))
  | 0, _, _, _ => none
  | _ + 1, [], _, _ => some none
  | fuel + 1, s :: q, seen, prev =>
    if s ∈ seen then some (some (s, prev))
    else
      let seen := seen ++ [s]
      match refs s with
      | none => bfsDetect refs fuel q seen prev
      | some rs =>
        bfsDetect refs fuel (q ++ rs) seen
          (fun v => if v ∈ rs then some s else prev v)

/-- The message-construction loop after a cycle is detected: starting
from `prev[s]`, append " -> c" and walk `c = prev[c]` until `c`
returns to `s` (`prev` reads of unseen keys default-construct the
empty string, as `std::map::operator[]` does).  The C++ loop is
unbounded; `none` means the fuel was exhausted. -/
def buildCycleChain (prev : String → Option String) (s : String) :
    Nat → String → String → Option String
  | fuel, c, acc =>
    if c = s then some (acc ++ " -> " ++ s)
    else
      match fuel with
      | 0 => none
      | fuel + 1 => buildCycleChain prev s fuel ((prev c).getD "") (acc ++ " -> " ++ c)

/-- The full cycle message `"found cycle " + s + " -> ... -> " + s`. -/
def buildCycleMessage (prev : String → Option String) (s : String)
    (fuelM : Nat) : Option String :=
  (buildCycleChain prev s fuelM ((prev s).getD "") s).map
    (fun cyc => "found cycle " ++ cyc)

/-- The four observable outcomes of
`ManifestParser::CheckRuleBindingDependencyCycle` under fuel: the
binding is accepted (with the updated reference map), rejected with the
cycle message, or one of the two loops exceeded its fuel. -/
inductive RuleCheckOutcome where
  | accepted (refs : String → Option (List String))
  | rejected (msg : String)
  | msgHang
  | bfsHang

/-- `ManifestParser::CheckRuleBindingDependencyCycle`: record the
reserved names referenced by the new binding's value in the reference
map, then BFS from the new key; a node reached twice is reported as a
cycle through the `prev`-chain message. -/
def checkRuleBindingDependencyCycle (fuelB fuelM : Nat)
    (refs : String → Option (List String)) (key : String)
    (value : List EvalTok) : RuleCheckOutcome :=
  let refs2 := fun k => if k = key then some (collectReserved value) else refs k
  match bfsDetect refs2 fuelB [key] [] (fun _ => none) with
  | none => RuleCheckOutcome.bfsHang
  | some none => RuleCheckOutcome.accepted refs2
  | some (some (s, prev)) =>
    match buildCycleMessage prev s fuelM with
    | some m => RuleCheckOutcome.rejected m
    | none => RuleCheckOutcome.msgHang

/-- Whether the outcome accepts the binding. -/
def RuleCheckOutcome.isAccepted : RuleCheckOutcome → Bool
  | RuleCheckOutcome.accepted _ => true
  | _ => false

/-- Whether the outcome rejects the binding with a constructed
message. -/
def RuleCheckOutcome.isRejected : RuleCheckOutcome → Bool
  | RuleCheckOutcome.rejected _ => true
  | _ => false

/-- The accepted reference map (the input map when not accepted). -/
def RuleCheckOutcome.refsOr (o : RuleCheckOutcome)
    (dflt : String → Option (List String)) : String → Option (List String) :=
  match o with
  | RuleCheckOutcome.accepted r => r
  | _ => dflt

/-- The rejection message, when there is one. -/
def RuleCheckOutcome.rejectedMsg : RuleCheckOutcome → Option String
  | RuleCheckOutcome.rejected m => some m
  | _ => none

/-- Bounded reachability in a reference graph: is there a non-empty
path from `a` to `b` of length at most `fuel`. -/
def reachesWithin (refs : String → Option (List String)) :
    Nat → String → String → Bool
  | 0, _, _ => false
  | fuel + 1, a, b =>
    ((refs a).getD []).any (fun c => c = b || reachesWithin refs fuel c b)

/-- Acyclicity of a reference graph over a finite name universe: no
name reaches itself by a non-empty path (paths longer than the
universe revisit a node, so the bound is complete). -/
def refGraphAcyclicOn (refs : String → Option (List String))
    (names : List String) : Bool :=
  names.all (fun n => !reachesWithin refs names.length n n)

/-- The entry written by one `RecordCommand` upsert. -/
def entryFor (path command : String) (startTime endTime : Int)
    (restatMtime : TimeStamp) : LogEntry :=
  { output := path, startTime := startTime, endTime := endTime,
    restatMtime := restatMtime, command := command,
    commandHash := hashCommand command }

/-- A concrete scanner context for witnesses: a constant disk, no deps
log, a given build log, a failing depfile parser and the identity
canonicalizer. -/
def mkCtx (log : Option BuildLogEntries) : ScanCtx :=
  { diskStat := fun _ => 1, diskRead := fun _ => ("", ""),
    depsLog := fun _ => none, buildLog := log,
    parseDepfile := fun _ => Except.error "",
    canonPath := fun s => Except.ok s }

/-! Pure descriptions of the scanner's input loop on an already
fully-stat'ed state, used to characterize straight-line runs of
`RecomputeDirty`. -/

/-- Clearing the edge's `outputs_ready_`, the only state write the
input loop performs when no input needs a fresh stat. -/
def clearReady (st : ScanState) (eid : Nat) : ScanState :=
  st.setEdge eid { st.edges eid with outputsReady := false }

/-- The pure value of the input loop's `(dirty, most_recent_input)`
accumulator on a state it does not modify. -/
def scanStep (st : ScanState) (eid nid idx : Nat) (dirty : Bool)
    (mri : Option Nat) : Bool × Option Nat :=
  if !(st.edges eid).isOrderOnly idx then
    if (st.nodes nid).dirty then (true, mri)
    else
      match mri with
      | none => (dirty, some nid)
      | some m =>
        if (st.nodes nid).mtime > (st.nodes m).mtime then (dirty, some nid)
        else (dirty, mri)
  else (dirty, mri)

def pureScanFold (st : ScanState) (eid : Nat) :
    List Nat → Nat → Bool → Option Nat → Bool × Option Nat
  | [], _, dirty, mri => (dirty, mri)
  | nid :: rest, idx, dirty, mri =>
    pureScanFold st eid rest (idx + 1) (scanStep st eid nid idx dirty mri).1
      (scanStep st eid nid idx dirty mri).2

/-- Whether some input's producing edge is not `outputs_ready` (the
condition under which the loop clears the scanned edge's readiness). -/
def anyInputNotReady (st : ScanState) (l : List Nat) : Bool :=
  l.any (fun n =>
    match (st.nodes n).inEdge with
    | some f => !(st.edges f).outputsReady
    | none => false)

/-- Fixture: the three-node graph of `build a: cat b / build b: cat c /
build c: cat a` (node 0 = a, 1 = b, 2 = c; edge i produces node i). -/
def cycleNodes : Nat → NodeData := fun i =>
  if i = 0 then { path := "a", inEdge := some 0 }
  else if i = 1 then { path := "b", inEdge := some 1 }
  else { path := "c", inEdge := some 2 }

/-- Fixture: the edges of the three-edge cycle manifest. -/
def cycleEdges : Nat → EdgeData := fun i =>
  if i = 0 then { command := "cat", outputs := [0], inputs := [1] }
  else if i = 1 then { command := "cat", outputs := [1], inputs := [2] }
  else { command := "cat", outputs := [2], inputs := [0] }

/-- Fixture: the scan state of the three-edge cycle manifest. -/
def cycleSt : ScanState :=
  { nodes := cycleNodes, nodeCount := 3, pathIds := fun _ => none,
    edges := cycleEdges, edgeCount := 3 }

/-- The flag state of a recoverable-missing-deps run right after
`RecomputeDirty` resets the flags and sets `deps_missing_`. -/
def dmSt3 (st : ScanState) (eid : Nat) : ScanState :=
  st.setEdge eid { st.edges eid with outputsReady := true, depsMissing := true }

/-- The state after the input loop of a recoverable-missing-deps run. -/
def dmRst (st : ScanState) (eid : Nat) : ScanState :=
  if anyInputNotReady (dmSt3 st eid) (st.edges eid).inputs then
    clearReady (dmSt3 st eid) eid
  else dmSt3 st eid

/-- The state after the output-marking loop of that run. -/
def dmSt5 (ctx : ScanCtx) (st : ScanState) (eid : Nat) : ScanState :=
  markOutputs ctx (((dmRst st eid).edges eid)).outputs true (dmRst st eid)

/-- The closed form of a recoverable-missing-deps `RecomputeDirty` run
on a fully stat'ed input list: flags reset with `deps_missing_` set,
the input loop's only possible write (clearing readiness), the output
marking with `dirty = true`, and the final readiness clear for a
non-trivial edge. -/
def depsMissingRes (ctx : ScanCtx) (st : ScanState) (eid : Nat) : ScanState :=
  if !(((dmSt5 ctx st eid).edges eid).isPhony &&
      ((dmSt5 ctx st eid).edges eid).inputs.isEmpty) then
    clearReady (dmSt5 ctx st eid) eid
  else dmSt5 ctx st eid

/-! Fixtures for the deps-log staleness flip: node 0 ("out") is not yet
stat'ed (mtime −1), edge 0 regenerates it via a `deps` attribute, and
the deps log holds an entry with mtime 2 while the disk says 5. -/

/-- Fixture: the single un-stat'ed output node of the flip graph. -/
def flipNodes : Nat → NodeData := fun _ => { path := "out", inEdge := some 0 }

/-- Fixture: the single deps-attribute edge of the flip graph. -/
def flipEdges : Nat → EdgeData := fun _ =>
  { command := "cc", depsType := "gcc", outputs := [0] }

/-- Fixture: the scan state of the flip graph. -/
def flipSt : ScanState :=
  { nodes := flipNodes, nodeCount := 1, pathIds := fun _ => none,
    edges := flipEdges, edgeCount := 1 }

/-- Fixture: the flip context — disk mtime 5, deps-log mtime 2. -/
def flipCtx : ScanCtx :=
  { mkCtx none with
    diskStat := fun _ => 5
    depsLog := fun _ => some { mtime := 2, nodes := [] } }

/-! Fixtures for the missing-deps scan: one edge producing node 0
("out") from input node 1 ("in"), both already stat'ed. -/

/-- Fixture: nodes of the missing-deps graph (0 = "out", built by edge
0; 1 = "in", a source file). -/
def depNodes : Nat → NodeData := fun i =>
  if i = 0 then { path := "out", mtime := 5, inEdge := some 0 }
  else { path := "in", mtime := 3 }

/-- Fixture: edge 0 carries a `depfile` attribute. -/
def depEdges : Nat → EdgeData := fun i =>
  if i = 0 then
    { command := "cc", depfile := "d.d", inputs := [1], outputs := [0] }
  else {}

/-- Fixture: the scan state of the missing-depfile edge. -/
def depSt : ScanState :=
  { nodes := depNodes, nodeCount := 2, pathIds := fun _ => none,
    edges := depEdges, edgeCount := 1 }

/-- Fixture: the same graph with a `deps` attribute instead of a
depfile. -/
def depLogSt : ScanState :=
  { depSt with
    edges := fun i =>
      if i = 0 then
        { command := "cc", depsType := "gcc", inputs := [1], outputs := [0] }
      else {} }

/-- Fixture: a context whose deps log holds an entry staler than node
0's mtime. -/
def staleCtx : ScanCtx :=
  { mkCtx none with depsLog := fun _ => some { mtime := 2, nodes := [1] } }

/-- Fixture: a context whose depfile exists but fails to parse. -/
def badParseCtx : ScanCtx :=
  { mkCtx none with
    diskRead := fun _ => ("out: in", "")
    parseDepfile := fun _ => Except.error "bad" }

/-- Fixture: `depSt` after `RecomputeDirty`'s initial flag reset. -/
def depResetSt : ScanState :=
  depSt.setEdge 0 { depSt.edges 0 with outputsReady := true, depsMissing := false }

/-! Fixtures for the deps-missing consumer edge of `CleanNode`: node 0
("src") feeds edge 0 (deps missing, wanted-true) which produces node 1
("obj", dirty). -/

/-- Fixture: the nodes of the deps-missing `CleanNode` graph. -/
def c9Nodes : Nat → NodeData := fun i =>
  if i = 0 then { path := "src", mtime := 3, dirty := true, outEdges := [0] }
  else { path := "obj", mtime := 4, dirty := true, inEdge := some 0 }

/-- Fixture: edge 0 of that graph, with `deps_missing_` set. -/
def c9Edges : Nat → EdgeData := fun i =>
  if i = 0 then
    { command := "cc", inputs := [0], outputs := [1], depsMissing := true }
  else {}

/-- Fixture: the scan state of the deps-missing `CleanNode` graph. -/
def c9St : ScanState :=
  { nodes := c9Nodes, nodeCount := 2, pathIds := fun _ => none,
    edges := c9Edges, edgeCount := 1 }

/-- Fixture: the plan wanting edge 0. -/
def c9Ps : PlanState :=
  { want := [(0, true)], ready := [], commandEdges := 1, wantedEdges := 1,
    pools := fun _ => {} }

/-- Fixture: `c9St` after `CleanNode` marks node 0 clean. -/
def c9StClean : ScanState := c9St.setNode 0 { c9St.nodes 0 with dirty := false }

/-- Fixture: a freshly constructed plan. -/
def emptyPlan : PlanState :=
  { want := [], ready := [], commandEdges := 0, wantedEdges := 0,
    pools := fun _ => {} }

/-! Fixtures for the reserved-binding diamond of the manifest rule
`rule r / depfile = d / rspfile = $depfile / command = $depfile $rspfile`:
the parser adds the three bindings in order, threading the reference
map. -/

/-- Fixture: the empty reference map a `ParseRule` call starts from. -/
def ruleRefs0 : String → Option (List String) := fun _ => none

/-- Fixture: the value of `depfile = d`. -/
def diamondVal1 : List EvalTok := [EvalTok.lit "d"]

/-- Fixture: the value of `rspfile = $depfile`. -/
def diamondVal2 : List EvalTok := [EvalTok.varref "depfile"]

/-- Fixture: the value of `command = $depfile $rspfile`. -/
def diamondVal3 : List EvalTok :=
  [EvalTok.varref "depfile", EvalTok.lit " ", EvalTok.varref "rspfile"]

/-- Fixture: the reference map after accepting `depfile = d`. -/
def ruleRefs1 : String → Option (List String) :=
  (checkRuleBindingDependencyCycle 10 10 ruleRefs0 "depfile" diamondVal1).refsOr
    ruleRefs0

/-- Fixture: the reference map after accepting `rspfile = $depfile`. -/
def ruleRefs2 : String → Option (List String) :=
  (checkRuleBindingDependencyCycle 10 10 ruleRefs1 "rspfile" diamondVal2).refsOr
    ruleRefs1

/-- Fixture: the reference map with `command`'s references added — the
graph the acceptance decision is about. -/
def diamondRefs3 : String → Option (List String) := fun k =>
  if k = "command" then some (collectReserved diamondVal3) else ruleRefs2 k

/-- Fixture: the `prev` map at the moment the BFS (spuriously) detects
a cycle at `depfile` on the diamond: `prev[depfile] = rspfile`
(overwritten), `prev[rspfile] = command`, and `prev[command]` was never
assigned. -/
def diamondPrev : String → Option String := fun v =>
  if v ∈ (["depfile"] : List String) then some "rspfile"
  else if v ∈ (collectReserved diamondVal3 : List String) then some "command"
  else none

/-! # Theorems -/

/-! ## Build-log lookup/upsert lemmas -/

theorem find?_replace_self (q : String) (en : LogEntry) (hen : en.output = q) :
    ∀ xs : List LogEntry,
      List.find? (fun x => x.output = q)
        (xs.map (fun x => if x.output = q then en else x)) =
        if (xs.find? (fun x => x.output = q)).isSome then some en else none := by
  intro xs
  induction xs with
  | nil => simp
  | cons x xs ih =>
    by_cases hx : x.output = q
    · rw [List.map_cons, if_pos hx,
        List.find?_cons_of_pos _ (by simp [hen]),
        List.find?_cons_of_pos _ (by simp [hx])]
      simp
    · rw [List.map_cons, if_neg hx,
        List.find?_cons_of_neg _ (by simp [hx]),
        List.find?_cons_of_neg _ (by simp [hx])]
      exact ih

theorem find?_replace_other (q p : String) (hqp : q ≠ p) (en : LogEntry)
    (hen : en.output = q) :
    ∀ xs : List LogEntry,
      List.find? (fun x => x.output = p)
        (xs.map (fun x => if x.output = q then en else x)) =
        List.find? (fun x => x.output = p) xs := by
  intro xs
  induction xs with
  | nil => simp
  | cons x xs ih =>
    by_cases hx : x.output = q
    · have hxp : ¬ x.output = p := by rw [hx]; exact hqp
      have henp : ¬ en.output = p := by rw [hen]; exact hqp
      rw [List.map_cons, if_pos hx,
        List.find?_cons_of_neg _ (by simp [henp]),
        List.find?_cons_of_neg _ (by simp [hxp])]
      exact ih
    · by_cases hxp : x.output = p
      · rw [List.map_cons, if_neg hx,
          List.find?_cons_of_pos _ (by simp [hxp]),
          List.find?_cons_of_pos _ (by simp [hxp])]
      · rw [List.map_cons, if_neg hx,
          List.find?_cons_of_neg _ (by simp [hxp]),
          List.find?_cons_of_neg _ (by simp [hxp])]
        exact ih

theorem lookupByOutput_upsertEntry_self (log : BuildLogEntries)
    (p c : String) (s e : Int) (r : TimeStamp) :
    lookupByOutput (upsertEntry log p c s e r) p = some (entryFor p c s e r) := by
  rw [upsertEntry, lookupByOutput]
  by_cases hs : (log.find? (fun x => x.output = p)).isSome
  · rw [if_pos hs, find?_replace_self p _ rfl, if_pos hs]
    rfl
  · rw [if_neg hs, List.find?_append]
    have hnone : log.find? (fun x => x.output = p) = none := by
      cases h : log.find? (fun x => x.output = p) with
      | none => rfl
      | some v => rw [h] at hs; simp at hs
    rw [hnone]
    simp [entryFor]

theorem lookupByOutput_upsertEntry_other (log : BuildLogEntries)
    (p q c : String) (s e : Int) (r : TimeStamp) (h : q ≠ p) :
    lookupByOutput (upsertEntry log q c s e r) p = lookupByOutput log p := by
  rw [upsertEntry, lookupByOutput, lookupByOutput]
  by_cases hs : (log.find? (fun x => x.output = q)).isSome
  · rw [if_pos hs, find?_replace_other q p h _ rfl]
  · rw [if_neg hs, List.find?_append]
    cases hfind : log.find? (fun x => x.output = p) with
    | none => simp [h]
    | some v => simp

theorem lookupByOutput_recordFold_mem (nodes : Nat → NodeData)
    (c : String) (s e : Int) (r : TimeStamp) :
    ∀ (outs : List Nat) (log : BuildLogEntries) (out : Nat), out ∈ outs →
      lookupByOutput
        (outs.foldl (fun acc o => upsertEntry acc (nodes o).path c s e r) log)
        (nodes out).path = some (entryFor (nodes out).path c s e r) := by
  intro outs
  induction outs with
  | nil => intro log out h; cases h
  | cons x xs ih =>
    intro log out h
    rcases List.mem_cons.mp h with hx | hxs
    · rw [hx]
      by_cases hmem : ∃ y ∈ xs, (nodes y).path = (nodes x).path
      · rcases hmem with ⟨y, hy, hyp⟩
        have := ih (upsertEntry log (nodes x).path c s e r) y hy
        rw [hyp] at this
        simpa using this
      · push_neg at hmem
        have hpres :
            ∀ (ys : List Nat) (lg : BuildLogEntries),
              (∀ y ∈ ys, (nodes y).path ≠ (nodes x).path) →
              lookupByOutput
                (ys.foldl (fun acc o => upsertEntry acc (nodes o).path c s e r) lg)
                (nodes x).path = lookupByOutput lg (nodes x).path := by
          intro ys
          induction ys with
          | nil => intro lg _; rfl
          | cons z zs ihz =>
            intro lg hz
            have h1 := ihz (upsertEntry lg (nodes z).path c s e r)
              (fun y hy => hz y (List.mem_cons_of_mem _ hy))
            rw [List.foldl_cons, h1,
              lookupByOutput_upsertEntry_other _ _ _ _ _ _ _
                (hz z (List.mem_cons_self _ _))]
        rw [List.foldl_cons, hpres xs _ hmem,
          lookupByOutput_upsertEntry_self]
    · exact ih _ out hxs

/-! ## Claim C1: command hashes recorded and compared -/

/--
C1.  `BuildLog::RecordCommand` stores, for every output of the edge, an
entry whose 64-bit command hash is the hash of the fully expanded
command including any `rspfile_content`
(`EvaluateCommand(/∗incl_rsp_file=∗/true)`); and the command-change
test of `RecomputeOutputDirty` marks a non-phony, non-generator output
(that exists and passed the mtime test) dirty exactly when the log has
no entry for it or the stored hash differs from the hash of the
currently expanded command.
-/
theorem commandHash_recorded_and_tested
    (nodes : Nat → NodeData) (log : BuildLogEntries) (edge : EdgeData)
    (startTime endTime : Int) (restatMtime : TimeStamp) (out : Nat)
    (ctx : ScanCtx) (sedge : EdgeData) (mri : Option NodeData) (output : NodeData)
    (hmem : out ∈ edge.outputs)
    (hlog : ctx.buildLog.isSome = true)
    (hgen : sedge.generator = false)
    (hphony : sedge.isPhony = false)
    (hex : output.existsOnDisk = true)
    (hmtime : outputMtimeDirty ctx sedge mri output = false) :
    (lookupByOutput (recordCommand nodes log edge startTime endTime restatMtime)
        (nodes out).path =
      some (entryFor (nodes out).path (evaluateCommand true edge)
        startTime endTime restatMtime) ∧
     (entryFor (nodes out).path (evaluateCommand true edge)
        startTime endTime restatMtime).commandHash =
       hashCommand (evaluateCommand true edge) ∧
     hashCommand (evaluateCommand true edge) < 2 ^ 64) ∧
    (recomputeOutputDirty ctx sedge mri (evaluateCommand true sedge) output = true ↔
      ctx.logLookup output.path = none ∨
        ∃ en, ctx.logLookup output.path = some en ∧
          hashCommand (evaluateCommand true sedge) ≠ en.commandHash) := by
  constructor
  · refine ⟨?_, rfl, ?_⟩
    · exact lookupByOutput_recordFold_mem nodes _ _ _ _ edge.outputs log out hmem
    · exact Nat.mod_lt _ (by norm_num)
  · rw [recomputeOutputDirty]
    simp only [hphony, hex, hmtime, if_false, Bool.not_true, Bool.false_eq_true,
      Bool.not_false, if_true]
    rw [commandChangeDirty]
    simp only [hgen, hlog, Bool.not_false, Bool.and_self, if_true]
    cases hl : ctx.logLookup output.path with
    | none => simp
    | some en =>
      constructor
      · intro h
        refine Or.inr ⟨en, rfl, ?_⟩
        simpa using h
      · rintro (h | ⟨en2, hen2, hne⟩)
        · cases h
        · cases hen2
          simpa using hne

/-- Witness for C1 at a concrete edge, log and scanner state. -/
theorem commandHash_recorded_and_tested_witness :
    (0 : Nat) ∈ [0] ∧
    ((mkCtx (some [])).buildLog.isSome = true) ∧
    outputMtimeDirty (mkCtx (some []))
      { command := "cc -c f.c" } none { path := "f.o", mtime := 5 } = false ∧
    (lookupByOutput
        (recordCommand (fun _ => { path := "f.o", mtime := 5 }) []
          { command := "cc -c f.c", outputs := [0] } 1 2 3) "f.o" =
      some (entryFor "f.o" "cc -c f.c" 1 2 3) ∧
     (entryFor "f.o" "cc -c f.c" 1 2 3).commandHash = hashCommand "cc -c f.c" ∧
     hashCommand "cc -c f.c" < 2 ^ 64) ∧
    (recomputeOutputDirty (mkCtx (some []))
        { command := "cc -c f.c" } none "cc -c f.c"
        { path := "f.o", mtime := 5 } = true ↔
      (mkCtx (some [])).logLookup "f.o" = none ∨
        ∃ en, (mkCtx (some [])).logLookup "f.o" = some en ∧
          hashCommand "cc -c f.c" ≠ en.commandHash) := by
  refine ⟨by decide, rfl, rfl, ?_⟩
  have h := commandHash_recorded_and_tested
    (fun _ => { path := "f.o", mtime := 5 }) []
    { command := "cc -c f.c", outputs := [0] } 1 2 3 0
    (mkCtx (some []))
    { command := "cc -c f.c" } none { path := "f.o", mtime := 5 }
    (by decide) rfl rfl rfl rfl rfl
  exact h

/-! ## Claim C2: the restat exception to mtime-based dirtiness -/

/--
C2.  For a non-phony edge whose output exists, when the most recent
non-order-only input is newer than the output: `RecomputeOutputDirty`
marks the output dirty — except when the edge has a restat binding and
the build log holds an entry for the output whose `restat_mtime` is at
least the input's mtime, in which case the output is not dirty on mtime
grounds (the result is exactly the command-change test).
-/
theorem restat_mtime_exception (ctx : ScanCtx) (edge : EdgeData)
    (output : NodeData) (m : NodeData) (command : String)
    (hphony : edge.isPhony = false)
    (hex : output.existsOnDisk = true)
    (hlt : output.mtime < m.mtime) :
    ((edge.restat = false ∨ ctx.logLookup output.path = none ∨
        (∃ en, ctx.logLookup output.path = some en ∧ en.restatMtime < m.mtime)) →
      recomputeOutputDirty ctx edge (some m) command output = true) ∧
    (∀ en, edge.restat = true → ctx.logLookup output.path = some en →
      m.mtime ≤ en.restatMtime →
      recomputeOutputDirty ctx edge (some m) command output =
        commandChangeDirty ctx edge command output.path) := by
  constructor
  · intro hcase
    rw [recomputeOutputDirty]
    simp only [hphony, hex, Bool.false_eq_true, if_false, Bool.not_true, if_true]
    have hdirty : outputMtimeDirty ctx edge (some m) output = true := by
      rw [outputMtimeDirty]
      rcases hcase with hres | hnone | ⟨en, hen, hrm⟩
      · simp [hres, hlt]
      · by_cases hres : edge.restat
        · simp [hres, hnone, hlt]
        · simp [hres, hlt]
      · simp only [if_pos hlt]
        by_cases hres : edge.restat
        · simp [hres, hen, hrm]
        · simp [hres, hlt]
    rw [hdirty]
    simp
  · intro en hres hen hge
    rw [recomputeOutputDirty]
    simp only [hphony, hex, Bool.false_eq_true, if_false, Bool.not_true, if_true]
    have hclean : outputMtimeDirty ctx edge (some m) output = false := by
      rw [outputMtimeDirty]
      simp only [if_pos hlt, hres, if_true, hen]
      simp [not_lt.mpr hge]
    rw [hclean]
    simp

/-- Witness for C2: an output at mtime 5 behind an input at mtime 10,
rescued by a logged `restat_mtime` of 10. -/
theorem restat_mtime_exception_witness :
    (({ isPhony := false, restat := true } : EdgeData).isPhony = false) ∧
    (({ path := "out", mtime := 5 } : NodeData).existsOnDisk = true) ∧
    (({ path := "out", mtime := 5 } : NodeData).mtime <
      ({ path := "in", mtime := 10 } : NodeData).mtime) ∧
    (∀ en : LogEntry, ({ isPhony := false, restat := true } : EdgeData).restat = true →
      (mkCtx (some [{ output := "out", restatMtime := 10 }])).logLookup "out" = some en →
      ({ path := "in", mtime := 10 } : NodeData).mtime ≤ en.restatMtime →
      recomputeOutputDirty
          (mkCtx (some [{ output := "out", restatMtime := 10 }]))
          { isPhony := false, restat := true } (some { path := "in", mtime := 10 })
          "cmd" { path := "out", mtime := 5 } =
        commandChangeDirty
          (mkCtx (some [{ output := "out", restatMtime := 10 }]))
          { isPhony := false, restat := true } "cmd" "out") := by
  refine ⟨rfl, rfl, by norm_num, ?_⟩
  exact (restat_mtime_exception
    (mkCtx (some [{ output := "out", restatMtime := 10 }]))
    { isPhony := false, restat := true }
    { path := "out", mtime := 5 } { path := "in", mtime := 10 } "cmd"
    rfl rfl (by norm_num)).2

/-! ## Claim C4: depfile output mismatch is a hard error -/

/--
C4.  When an edge's depfile reads and parses but its (canonicalized)
output token differs from the edge's first output path, `LoadDeps`
fails with the exact message
`expected depfile '<path>' to mention '<first output>', got '<token>'`
and leaves the state — in particular the edge's input list — untouched.
-/
theorem depfile_mismatch_fatal (ctx : ScanCtx) (st : ScanState) (eid : Nat)
    (p content outToken outCanon : String) (ins : List String)
    (o0 : Nat) (rest : List Nat)
    (hdeps : (st.edges eid).depsType = "")
    (hdf : (st.edges eid).depfile = p)
    (hp : p ≠ "")
    (hread : ctx.diskRead p = (content, ""))
    (hcontent : content ≠ "")
    (hparse : ctx.parseDepfile content = Except.ok (outToken, ins))
    (hcanon : ctx.canonPath outToken = Except.ok outCanon)
    (houts : (st.edges eid).outputs = o0 :: rest)
    (hmismatch : (st.nodes o0).path ≠ outCanon) :
    loadDeps ctx st eid =
      (false,
       "expected depfile '" ++ p ++ "' to mention '" ++ (st.nodes o0).path ++
         "', got '" ++ outCanon ++ "'",
       st) := by
  simp [loadDeps, loadDepFile, hdeps, hdf, hp, hread, hcontent, hparse, hcanon,
    houts, hmismatch]

/-- Witness for C4: output `foo.o`, depfile mentioning `bar.o`. -/
theorem depfile_mismatch_fatal_witness :
    (({ depfile := "dep.d", outputs := [0] } : EdgeData).depsType = "") ∧
    (({ depfile := "dep.d", outputs := [0] } : EdgeData).depfile = "dep.d") ∧
    ("dep.d" ≠ "") ∧
    loadDeps
      { diskStat := fun _ => 1,
        diskRead := fun _ => ("bar.o: a.h", ""),
        depsLog := fun _ => none, buildLog := none,
        parseDepfile := fun _ => Except.ok ("bar.o", ["a.h"]),
        canonPath := fun s => Except.ok s }
      { nodes := fun _ => { path := "foo.o" }, nodeCount := 1,
        pathIds := fun pth => if pth = "foo.o" then some 0 else none,
        edges := fun _ => { depfile := "dep.d", outputs := [0] }, edgeCount := 1 }
      0 =
      (false, "expected depfile 'dep.d' to mention 'foo.o', got 'bar.o'",
       { nodes := fun _ => { path := "foo.o" }, nodeCount := 1,
         pathIds := fun pth => if pth = "foo.o" then some 0 else none,
         edges := fun _ => { depfile := "dep.d", outputs := [0] }, edgeCount := 1 }) := by
  refine ⟨rfl, rfl, by decide, ?_⟩
  exact depfile_mismatch_fatal
    { diskStat := fun _ => 1,
      diskRead := fun _ => ("bar.o: a.h", ""),
      depsLog := fun _ => none, buildLog := none,
      parseDepfile := fun _ => Except.ok ("bar.o", ["a.h"]),
      canonPath := fun s => Except.ok s }
    { nodes := fun _ => { path := "foo.o" }, nodeCount := 1,
      pathIds := fun pth => if pth = "foo.o" then some 0 else none,
      edges := fun _ => { depfile := "dep.d", outputs := [0] }, edgeCount := 1 }
    0 "dep.d" "bar.o: a.h" "bar.o" "bar.o" ["a.h"] 0 []
    rfl rfl (by decide) rfl (by decide) rfl rfl rfl (by decide)

/-! ## Claim C6: dependency cycles reported by AddTarget -/

/--
C6.  On the manifest `build a: cat b / build b: cat c / build c: cat a`,
`Plan::AddTarget(a)` fails with the error
`dependency cycle: a -> b -> c -> a`; and in general, when
`AddSubTarget` revisits a node on the current recursion stack,
`CheckDependencyCycle` reports a dependency-cycle error listing the
stack slice from that node's first occurrence, closed by the node
itself.
-/
theorem dependency_cycle_reported :
    ((addTarget cycleSt 10 0 emptyPlan).map (fun r => (r.1, r.2.1)) =
      some (false, "dependency cycle: a -> b -> c -> a")) ∧
    (∀ (st : ScanState) (nid : Nat) (stack : List Nat), nid ∈ stack →
      checkDependencyCycle st nid stack =
        (true,
         "dependency cycle: " ++ String.intercalate " -> "
           (((stack.drop (stack.indexOf nid)) ++ [nid]).map
             (fun n => (st.nodes n).path)),
         stack ++ [nid])) := by
  constructor
  · decide
  · intro st nid stack h
    have h1 : (stack ++ [nid]).indexOf nid = stack.indexOf nid :=
      List.indexOf_append_of_mem h
    have h2 : (stack ++ [nid]).drop (stack.indexOf nid) =
        stack.drop (stack.indexOf nid) ++ [nid] :=
      List.drop_append_of_le_length (le_of_lt (List.indexOf_lt_length.2 h))
    simp only [checkDependencyCycle, if_pos h]
    rw [h1, h2]

/-- Witness for C6's general clause: node 0 revisited on the stack
`[0, 1, 2]`. -/
theorem dependency_cycle_reported_witness :
    (0 : Nat) ∈ [0, 1, 2] ∧
    checkDependencyCycle cycleSt 0 [0, 1, 2] =
      (true,
       "dependency cycle: " ++ String.intercalate " -> "
         ((([0, 1, 2].drop ([0, 1, 2].indexOf 0) ++ [0]) : List Nat).map
           (fun n => (cycleSt.nodes n).path)),
       [0, 1, 2] ++ [0]) :=
  ⟨by decide, dependency_cycle_reported.2 cycleSt 0 [0, 1, 2] (by decide)⟩

/-! ## Claim C3: the reserved-binding cycle check -/

theorem buildCycleChain_empty_stuck (prev : String → Option String) (s : String)
    (hp : prev "" = none) (hs : ¬ ("" : String) = s) :
    ∀ (f : Nat) (acc : String), buildCycleChain prev s f "" acc = none := by
  intro f
  induction f with
  | zero =>
    intro acc
    rw [buildCycleChain, if_neg hs]
  | succ f ih =>
    intro acc
    rw [buildCycleChain, if_neg hs]
    simp only [hp, Option.getD_none]
    exact ih _

theorem diamond_message_never_built :
    ∀ fuelM : Nat, buildCycleMessage diamondPrev "depfile" fuelM = none := by
  have hstuck := buildCycleChain_empty_stuck diamondPrev "depfile" (by decide) (by decide)
  intro fm
  rcases fm with _ | _ | fm
  · decide
  · decide
  · show (buildCycleChain diamondPrev "depfile" fm ""
        "depfile -> rspfile -> command").map (fun cyc => "found cycle " ++ cyc) = none
    rw [hstuck]
    rfl

/-- The key computation behind the diamond bug: with any fuel of the
shape `fb + 4` the BFS reaches the spurious double pop of `depfile`,
and the outcome is whatever the message loop produces on
`diamondPrev`. -/
theorem checkRuleBinding_diamond_outcome (fb fuelM : Nat) :
    checkRuleBindingDependencyCycle (fb + 4) fuelM ruleRefs2 "command"
        diamondVal3 =
      (match buildCycleMessage diamondPrev "depfile" fuelM with
       | some m => RuleCheckOutcome.rejected m
       | none => RuleCheckOutcome.msgHang) := rfl

/--
C3 (code bug).  On the acyclic "diamond" rule
`rule r / depfile = d / rspfile = $depfile / command = $depfile $rspfile`,
the first two bindings are accepted; the reference graph including
`command`'s references is acyclic, so by the specification the third
binding must be accepted too — but the BFS of
`CheckRuleBindingDependencyCycle` pops `depfile` twice (it is reachable
both directly and through `rspfile`), declares a cycle, and the
message-construction loop then follows `prev` from `depfile` through
`rspfile` and `command` into the default-constructed empty string,
where it loops forever: for every fuel bound the call neither accepts
the binding nor produces an error message.  (On a genuine cycle such as
`command = $command` the check does reject with
`found cycle command -> command`, matching the spec's message form.)
-/
theorem checkRuleBinding_diamond_bug :
    ((checkRuleBindingDependencyCycle 10 10 ruleRefs0 "depfile" diamondVal1).isAccepted
       = true) ∧
    ((checkRuleBindingDependencyCycle 10 10 ruleRefs1 "rspfile" diamondVal2).isAccepted
       = true) ∧
    (refGraphAcyclicOn diamondRefs3 ["command", "depfile", "rspfile"] = true) ∧
    (∀ fuelB fuelM : Nat,
      (checkRuleBindingDependencyCycle fuelB fuelM ruleRefs2 "command"
          diamondVal3).isAccepted = false ∧
      (checkRuleBindingDependencyCycle fuelB fuelM ruleRefs2 "command"
          diamondVal3).isRejected = false) ∧
    ((checkRuleBindingDependencyCycle 10 10 ruleRefs0 "command"
        [EvalTok.varref "command"]).rejectedMsg =
      some "found cycle command -> command") := by
  refine ⟨rfl, rfl, rfl, ?_, rfl⟩
  intro fuelB fuelM
  rcases fuelB with _ | _ | _ | _ | fb
  · exact ⟨rfl, rfl⟩
  · exact ⟨rfl, rfl⟩
  · exact ⟨rfl, rfl⟩
  · exact ⟨rfl, rfl⟩
  · have houtcome :
        checkRuleBindingDependencyCycle (fb + 4) fuelM ruleRefs2 "command"
          diamondVal3 = RuleCheckOutcome.msgHang := by
      rw [checkRuleBinding_diamond_outcome fb fuelM,
        diamond_message_never_built fuelM]
    rw [houtcome]
    exact ⟨rfl, rfl⟩

/-! ## Claim C8: the v4 on-disk round trip -/

theorem digitChar_toNat (d : Nat) (h : d < 10) :
    (Char.ofNat (48 + d)).toNat = 48 + d := by
  interval_cases d <;> decide

theorem isDigitCh_digitChar (d : Nat) (h : d < 10) :
    isDigitCh (Char.ofNat (48 + d)) = true := by
  interval_cases d <;> decide

theorem renderNatAux_chars (f : Nat) :
    ∀ n, n < 10 ^ (f + 1) →
      ∀ c ∈ renderNatAux (f + 1) n, isDigitCh c = true := by
  induction f with
  | zero =>
    intro n hn c hc
    rw [renderNatAux, if_pos (by simpa using hn)] at hc
    simp only [List.mem_singleton] at hc
    subst hc
    exact isDigitCh_digitChar n (by simpa using hn)
  | succ f ih =>
    intro n hn c hc
    by_cases h10 : n < 10
    · rw [renderNatAux, if_pos h10] at hc
      simp only [List.mem_singleton] at hc
      subst hc
      exact isDigitCh_digitChar n h10
    · rw [renderNatAux, if_neg h10] at hc
      rcases List.mem_append.mp hc with h1 | h2
      · refine ih (n / 10) ?_ c h1
        have : n < 10 * 10 ^ (f + 1) := by
          calc n < 10 ^ (f + 1 + 1) := hn
          _ = 10 * 10 ^ (f + 1) := by ring
        exact Nat.div_lt_of_lt_mul this
      · simp only [List.mem_singleton] at h2
        subst h2
        exact isDigitCh_digitChar (n % 10) (Nat.mod_lt _ (by norm_num))

theorem isDigitCh_char_ne (c : Char) (h : isDigitCh c = true) :
    ¬ c = ' ' ∧ ¬ c = '\t' ∧ ¬ c = '-' ∧ ¬ c = '+' ∧ ¬ c = '\n' := by
  rw [isDigitCh, Bool.and_eq_true, decide_eq_true_iff, decide_eq_true_iff] at h
  refine ⟨?_, ?_, ?_, ?_, ?_⟩ <;> rintro rfl <;> revert h <;> decide

theorem scanDigits_renderNatAux (f : Nat) :
    ∀ (n acc : Nat) (rest : List Char), n < 10 ^ (f + 1) →
      scanDigits acc (renderNatAux (f + 1) n ++ rest) =
        scanDigits (acc * 10 ^ (renderNatAux (f + 1) n).length + n) rest := by
  induction f with
  | zero =>
    intro n acc rest hn
    have h10 : n < 10 := by simpa using hn
    rw [renderNatAux, if_pos h10]
    rw [List.singleton_append, scanDigits,
      if_pos (isDigitCh_digitChar n h10)]
    rw [digitChar_toNat n h10]
    simp
  | succ f ih =>
    intro n acc rest hn
    by_cases h10 : n < 10
    · rw [renderNatAux, if_pos h10]
      rw [List.singleton_append, scanDigits,
        if_pos (isDigitCh_digitChar n h10)]
      rw [digitChar_toNat n h10]
      simp
    · rw [renderNatAux, if_neg h10]
      have hdiv : n / 10 < 10 ^ (f + 1) := by
        have : n < 10 * 10 ^ (f + 1) := by
          calc n < 10 ^ (f + 1 + 1) := hn
          _ = 10 * 10 ^ (f + 1) := by ring
        exact Nat.div_lt_of_lt_mul this
      rw [List.append_assoc, List.singleton_append]
      rw [ih (n / 10) acc _ hdiv]
      rw [scanDigits, if_pos (isDigitCh_digitChar (n % 10) (Nat.mod_lt _ (by norm_num)))]
      rw [digitChar_toNat (n % 10) (Nat.mod_lt _ (by norm_num))]
      have harith :
          (acc * 10 ^ (renderNatAux (f + 1) (n / 10)).length + n / 10) * 10 +
              (48 + n % 10 - 48) =
            acc * 10 ^ (renderNatAux (f + 1) (n / 10) ++
              [Char.ofNat (48 + n % 10)]).length + n := by
        rw [List.length_append, List.length_singleton,
          Nat.add_sub_cancel_left, pow_succ]
        have := Nat.div_add_mod n 10
        ring_nf
        omega
      rw [harith]

theorem renderNatAux_ne_nil (f n : Nat) : renderNatAux (f + 1) n ≠ [] := by
  rw [renderNatAux]
  by_cases h10 : n < 10
  · simp [h10]
  · simp [h10]

theorem scanDigits_renderNat (n acc : Nat) (rest : List Char) :
    scanDigits acc (renderNat n ++ rest) =
      scanDigits (acc * 10 ^ (renderNat n).length + n) rest := by
  have hn : n < 10 ^ (n + 1) :=
    lt_of_lt_of_le (Nat.lt_pow_self (by norm_num) n)
      (Nat.pow_le_pow_right (by norm_num) (Nat.le_succ n))
  exact scanDigits_renderNatAux n n acc rest hn

theorem renderNat_chars (n : Nat) : ∀ c ∈ renderNat n, isDigitCh c = true := by
  have hn : n < 10 ^ (n + 1) :=
    lt_of_lt_of_le (Nat.lt_pow_self (by norm_num) n)
      (Nat.pow_le_pow_right (by norm_num) (Nat.le_succ n))
  exact renderNatAux_chars n n hn

theorem scanInt_renderNat (n : Nat) :
    scanInt (renderNat n) = some (Int.ofNat n, []) := by
  cases hr : renderNat n with
  | nil => exact absurd hr (renderNatAux_ne_nil n n)
  | cons c cs =>
    have hc : isDigitCh c = true := by
      refine renderNat_chars n c ?_
      rw [hr]; exact List.mem_cons_self _ _
    obtain ⟨h1, h2, h3, h4, _⟩ := isDigitCh_char_ne c hc
    have hsc : scanDigits 0 (c :: cs) = (n, []) := by
      have h := scanDigits_renderNat n 0 []
      rw [List.append_nil, hr] at h
      rw [h]
      simp [scanDigits]
    simp only [scanInt]
    rw [if_neg (by simp [h1, h2]), if_neg h3, if_neg h4, if_pos hc, hsc]

theorem atoiCh_renderInt (i : Int) : atoiCh (renderInt i) = i := by
  cases i with
  | ofNat n =>
    rw [renderInt, atoiCh, scanInt_renderNat n]
  | negSucc m =>
    have hscan : scanInt ('-' :: renderNat (m + 1)) = some (Int.negSucc m, []) := by
      cases hr : renderNat (m + 1) with
      | nil => exact absurd hr (renderNatAux_ne_nil (m + 1) (m + 1))
      | cons c cs =>
        have hc : isDigitCh c = true := by
          refine renderNat_chars (m + 1) c ?_
          rw [hr]; exact List.mem_cons_self _ _
        have hsc : scanDigits 0 (c :: cs) = (m + 1, []) := by
          have h := scanDigits_renderNat (m + 1) 0 []
          rw [List.append_nil, hr] at h
          rw [h]
          simp [scanDigits]
        simp only [scanInt]
        simp [hc, hsc, Int.negSucc_eq]
    rw [renderInt, atoiCh, hscan]

theorem renderInt_no_tab_newline (i : Int) :
    ∀ c ∈ renderInt i, ¬ c = '\t' ∧ ¬ c = '\n' := by
  have hdig : ∀ n, ∀ c ∈ renderNat n, ¬ c = '\t' ∧ ¬ c = '\n' := by
    intro n c hc
    have := isDigitCh_char_ne c (renderNat_chars n c hc)
    exact ⟨this.2.1, this.2.2.2.2⟩
  cases i with
  | ofNat n => exact hdig n
  | negSucc m =>
    intro c hc
    rcases List.mem_cons.mp hc with rfl | hmem
    · exact ⟨by decide, by decide⟩
    · exact hdig (m + 1) c hmem

theorem cutFirst_append (sep : Char) (ys : List Char) :
    ∀ xs : List Char, sep ∉ xs →
      cutFirst sep (xs ++ sep :: ys) = some (xs, ys) := by
  intro xs
  induction xs with
  | nil => intro _; simp [cutFirst]
  | cons c cs ih =>
    intro h
    have hc : ¬ c = sep := fun hc => h (hc ▸ List.mem_cons_self _ _)
    rw [List.cons_append, cutFirst, if_neg hc,
      ih (fun hm => h (List.mem_cons_of_mem _ hm))]
    rfl

theorem splitLinesAux_append (rest : List Char) :
    ∀ (l acc : List Char), '\n' ∉ l →
      splitLinesAux acc (l ++ '\n' :: rest) =
        (acc ++ l) :: splitLinesAux [] rest := by
  intro l
  induction l with
  | nil => intro acc _; simp [splitLinesAux]
  | cons c cs ih =>
    intro acc h
    have hc : ¬ c = '\n' := fun hc => h (hc ▸ List.mem_cons_self _ _)
    rw [List.cons_append, splitLinesAux, if_neg hc,
      ih (acc ++ [c]) (fun hm => h (List.mem_cons_of_mem _ hm))]
    simp

theorem renderEntry_eq_body (en : LogEntry) :
    renderEntry en = entryLineBody en ++ ['\n'] := by
  simp [renderEntry, entryLineBody, List.append_assoc]

theorem entryLineBody_no_newline (en : LogEntry)
    (hout : '\n' ∉ en.output.data) (hcmd : '\n' ∉ en.command.data) :
    '\n' ∉ entryLineBody en := by
  have h1 : '\n' ∉ renderInt en.startTime :=
    fun h => (renderInt_no_tab_newline _ _ h).2 rfl
  have h2 : '\n' ∉ renderInt en.endTime :=
    fun h => (renderInt_no_tab_newline _ _ h).2 rfl
  have h3 : '\n' ∉ renderInt en.restatMtime :=
    fun h => (renderInt_no_tab_newline _ _ h).2 rfl
  rw [entryLineBody]
  simp [List.mem_append, List.mem_cons, h1, h2, h3, hout, hcmd]

theorem string_mk_data (s : String) : String.mk s.data = s := rfl

theorem parseLogLine_entryLineBody (en : LogEntry)
    (hout : '\t' ∉ en.output.data)
    (hhash : en.commandHash = hashCommand en.command) :
    parseLogLine 4 (entryLineBody en) = some en := by
  have hs : '\t' ∉ renderInt en.startTime :=
    fun h => (renderInt_no_tab_newline _ _ h).1 rfl
  have he : '\t' ∉ renderInt en.endTime :=
    fun h => (renderInt_no_tab_newline _ _ h).1 rfl
  have hr : '\t' ∉ renderInt en.restatMtime :=
    fun h => (renderInt_no_tab_newline _ _ h).1 rfl
  rw [parseLogLine, entryLineBody]
  rw [show ((if (4 : Int) ≥ 4 then '\t' else ' ') = '\t') from rfl]
  simp only [List.cons_append, List.append_assoc]
  simp only [cutFirst_append '\t' _ _ hs, cutFirst_append '\t' _ _ he,
    cutFirst_append '\t' _ _ hr, cutFirst_append '\t' _ _ hout,
    atoiCh_renderInt, string_mk_data]
  rw [← hhash]

theorem find?_eq_none_of_disjoint (acc : BuildLogEntries) (out : String)
    (h : ∀ a ∈ acc, a.output ≠ out) :
    acc.find? (fun e => e.output = out) = none := by
  rw [List.find?_eq_none]
  intro a ha
  simp [h a ha]

theorem loadLines_goodEntries :
    ∀ (log : List LogEntry) (acc : BuildLogEntries) (u t : Nat),
      (∀ en ∈ log, '\t' ∉ en.output.data ∧
        en.commandHash = hashCommand en.command) →
      (∀ en ∈ log, ∀ a ∈ acc, a.output ≠ en.output) →
      ((log.map (fun en => en.output)).Nodup) →
      loadLines (log.map entryLineBody) 4 (acc, u, t) =
        (4, acc ++ log, u + log.length, t + log.length) := by
  intro log
  induction log with
  | nil => intro acc u t _ _ _; simp [loadLines]
  | cons en rest ih =>
    intro acc u t hgood hdisj hnodup
    rw [List.map_cons, loadLines]
    rw [if_neg (by norm_num)]
    rw [parseLogLine_entryLineBody en (hgood en (List.mem_cons_self _ _)).1
      (hgood en (List.mem_cons_self _ _)).2]
    have hfind : acc.find? (fun e => e.output = en.output) = none :=
      find?_eq_none_of_disjoint acc en.output
        (fun a ha => hdisj en (List.mem_cons_self _ _) a ha)
    simp only [loadUpsert, hfind, Option.isSome_none, Bool.false_eq_true,
      if_false]
    have hdisj2 : ∀ e2 ∈ rest, ∀ a ∈ acc ++ [en], a.output ≠ e2.output := by
      intro e2 he2 a ha
      rcases List.mem_append.mp ha with h1 | h1
      · exact hdisj e2 (List.mem_cons_of_mem _ he2) a h1
      · simp only [List.mem_singleton] at h1
        subst h1
        rw [List.map_cons, List.nodup_cons] at hnodup
        exact fun hEq => hnodup.1 (hEq ▸ List.mem_map_of_mem _ he2)
    have := ih (acc ++ [en]) (u + 1) (t + 1)
      (fun e2 he2 => hgood e2 (List.mem_cons_of_mem _ he2))
      hdisj2
      (by rw [List.map_cons, List.nodup_cons] at hnodup; exact hnodup.2)
    rw [this]
    simp only [List.append_assoc, List.singleton_append, List.length_cons,
      Prod.mk.injEq]
    refine ⟨trivial, trivial, by omega, by omega⟩

theorem splitLines_flatten_entries :
    ∀ (log : List LogEntry),
      (∀ en ∈ log, '\n' ∉ en.output.data ∧ '\n' ∉ en.command.data) →
      splitLinesAux [] ((log.map renderEntry).flatten) =
        log.map entryLineBody := by
  intro log
  induction log with
  | nil => intro _; rfl
  | cons en rest ih =>
    intro h
    rw [List.map_cons, List.flatten_cons, renderEntry_eq_body,
      List.append_assoc, List.singleton_append]
    rw [splitLinesAux_append _ _ []
      (entryLineBody_no_newline en (h en (List.mem_cons_self _ _)).1
        (h en (List.mem_cons_self _ _)).2)]
    rw [ih (fun e2 he2 => h e2 (List.mem_cons_of_mem _ he2))]
    simp

/--
C8 (amended).  Writing an in-memory entry set in the v4 on-disk format
and loading the result reconstructs exactly the same entry set —
provided no output path contains a tab or newline and no command
contains a newline (the format separates fields by tabs and entries by
newlines and cannot represent such strings; see the counterexample),
and entries carry the hash of their command as `RecordCommand` stores
them.  The loader also sees version 4 and exactly one entry per unique
output, so no recompaction is flagged.
-/
theorem log_write_load_roundTrip (log : List LogEntry)
    (hout : ∀ en ∈ log, '\t' ∉ en.output.data ∧ '\n' ∉ en.output.data)
    (hcmd : ∀ en ∈ log, '\n' ∉ en.command.data)
    (hhash : ∀ en ∈ log, en.commandHash = hashCommand en.command)
    (hdist : (log.map (fun en => en.output)).Nodup) :
    loadLog (writeLogFile log) = (log, false) := by
  have hsig : writeLogFile log =
      "# ninja log v4".data ++ '\n' :: (log.map renderEntry).flatten := by
    rw [writeLogFile,
      show fileSignature = "# ninja log v4".data ++ ['\n'] from rfl,
      List.append_assoc]
    rfl
  have hsplit : splitLines (writeLogFile log) =
      "# ninja log v4".data :: log.map entryLineBody := by
    rw [splitLines, hsig, splitLinesAux_append _ _ [] (by decide),
      splitLines_flatten_entries log
        (fun en hen => ⟨(hout en hen).2, hcmd en hen⟩)]
    rfl
  have hlines :
      loadLines ("# ninja log v4".data :: log.map entryLineBody) 0 ([], 0, 0) =
        (4, [] ++ log, 0 + log.length, 0 + log.length) := by
    rw [loadLines, if_pos rfl,
      show parseSignature ("# ninja log v4".data) = some 4 from rfl]
    exact loadLines_goodEntries log [] 0 0
      (fun en hen => ⟨(hout en hen).1, hhash en hen⟩)
      (fun _ _ _ h => absurd h (List.not_mem_nil _))
      hdist
  have hcond : ¬ (log.length > log.length * 3) := by omega
  rw [loadLog, hsplit, hlines]
  simp [hcond]

/-- Counterexample to C8 as stated: an entry whose command contains a
newline.  The written file splits that command across two lines; the
loader reads the first line as an entry with the truncated command and
skips the second (no tab separator), so load ∘ write is not the
identity on this entry set. -/
theorem log_write_load_not_identity :
    (loadLog (writeLogFile
        [{ output := "o", startTime := 1, endTime := 2, restatMtime := 3,
           command := "a\nb", commandHash := hashCommand "a\nb" }])).1 ≠
      [{ output := "o", startTime := 1, endTime := 2, restatMtime := 3,
         command := "a\nb", commandHash := hashCommand "a\nb" }] ∧
    (loadLog (writeLogFile
        [{ output := "o", startTime := 1, endTime := 2, restatMtime := 3,
           command := "a\nb", commandHash := hashCommand "a\nb" }])).1 =
      [{ output := "o", startTime := 1, endTime := 2, restatMtime := 3,
         command := "a", commandHash := hashCommand "a" }] := by
  constructor
  · decide
  · decide

/-- Witness for the amended C8 at a two-entry log (negative times, a
tab inside a command). -/
theorem log_write_load_roundTrip_witness :
    loadLog (writeLogFile
        [{ output := "o", startTime := 1, endTime := 2, restatMtime := 3,
           command := "cmd x", commandHash := hashCommand "cmd x" },
         { output := "p q", startTime := -4, endTime := 0, restatMtime := -1,
           command := "tab\there", commandHash := hashCommand "tab\there" }]) =
      ([{ output := "o", startTime := 1, endTime := 2, restatMtime := 3,
          command := "cmd x", commandHash := hashCommand "cmd x" },
        { output := "p q", startTime := -4, endTime := 0, restatMtime := -1,
          command := "tab\there", commandHash := hashCommand "tab\there" }],
       false) :=
  log_write_load_roundTrip _
    (by intro en hen
        simp only [List.mem_cons, List.not_mem_nil, or_false] at hen
        rcases hen with rfl | rfl
        · exact ⟨by decide, by decide⟩
        · exact ⟨by decide, by decide⟩)
    (by intro en hen
        simp only [List.mem_cons, List.not_mem_nil, or_false] at hen
        rcases hen with rfl | rfl
        · decide
        · decide)
    (by intro en hen
        simp only [List.mem_cons, List.not_mem_nil, or_false] at hen
        rcases hen with rfl | rfl
        · rfl
        · rfl)
    (by decide)

/-! ## Scanner state lemmas -/

theorem nodes_setEdge (st : ScanState) (i : Nat) (d : EdgeData) :
    (st.setEdge i d).nodes = st.nodes := rfl

theorem edges_setNode (st : ScanState) (i : Nat) (d : NodeData) :
    (st.setNode i d).edges = st.edges := rfl

theorem edges_setEdge_self (st : ScanState) (i : Nat) (d : EdgeData) :
    (st.setEdge i d).edges i = d := by
  simp [ScanState.setEdge]

theorem edges_setEdge_ne (st : ScanState) (i : Nat) (d : EdgeData) (j : Nat)
    (h : j ≠ i) : (st.setEdge i d).edges j = st.edges j := by
  simp [ScanState.setEdge, h]

theorem nodes_clearReady (st : ScanState) (eid : Nat) :
    (clearReady st eid).nodes = st.nodes := rfl

theorem edges_clearReady_ne (st : ScanState) (eid f : Nat) (h : f ≠ eid) :
    (clearReady st eid).edges f = st.edges f :=
  edges_setEdge_ne st eid _ f h

theorem edges_clearReady_self (st : ScanState) (eid : Nat) :
    (clearReady st eid).edges eid = { st.edges eid with outputsReady := false } :=
  edges_setEdge_self st eid _

theorem clearReady_idem (st : ScanState) (eid : Nat) :
    clearReady (clearReady st eid) eid = clearReady st eid := by
  unfold clearReady ScanState.setEdge
  refine ScanState.ext ?_ rfl rfl ?_ rfl
  · rfl
  · funext j
    by_cases hj : j = eid <;> simp [hj]

theorem isOrderOnly_clearReady (st : ScanState) (eid : Nat) (idx : Nat) :
    ((clearReady st eid).edges eid).isOrderOnly idx =
      ((st.edges eid)).isOrderOnly idx := by
  rw [edges_clearReady_self]
  rfl

theorem scanStep_clearReady (st : ScanState) (eid nid idx : Nat) (d : Bool)
    (m : Option Nat) :
    scanStep (clearReady st eid) eid nid idx d m = scanStep st eid nid idx d m := by
  unfold scanStep
  rw [isOrderOnly_clearReady]
  rfl

theorem pureScanFold_cons (st : ScanState) (eid nid : Nat) (rest : List Nat)
    (idx : Nat) (d : Bool) (m : Option Nat) :
    pureScanFold st eid (nid :: rest) idx d m =
      pureScanFold st eid rest (idx + 1) (scanStep st eid nid idx d m).1
        (scanStep st eid nid idx d m).2 := rfl

theorem pureScanFold_clearReady (st : ScanState) (eid : Nat) :
    ∀ (l : List Nat) (idx : Nat) (d : Bool) (m : Option Nat),
      pureScanFold (clearReady st eid) eid l idx d m =
        pureScanFold st eid l idx d m := by
  intro l
  induction l with
  | nil => intro idx d m; rfl
  | cons nid rest ih =>
    intro idx d m
    rw [pureScanFold_cons, pureScanFold_cons, scanStep_clearReady]
    exact ih (idx + 1) _ _

theorem anyInputNotReady_cons (st : ScanState) (nid : Nat) (rest : List Nat) :
    anyInputNotReady st (nid :: rest) =
      ((match (st.nodes nid).inEdge with
        | some f => !(st.edges f).outputsReady
        | none => false) || anyInputNotReady st rest) := rfl

theorem anyInputNotReady_cons_edge (st : ScanState) (nid : Nat)
    (rest : List Nat) (f : Nat) (hie : (st.nodes nid).inEdge = some f) :
    anyInputNotReady st (nid :: rest) =
      (!(st.edges f).outputsReady || anyInputNotReady st rest) := by
  rw [anyInputNotReady_cons, hie]

theorem anyInputNotReady_cons_src (st : ScanState) (nid : Nat)
    (rest : List Nat) (hie : (st.nodes nid).inEdge = none) :
    anyInputNotReady st (nid :: rest) = anyInputNotReady st rest := by
  rw [anyInputNotReady_cons, hie]
  rfl

theorem anyInputNotReady_clearReady (st : ScanState) (eid : Nat) :
    ∀ (l : List Nat), (∀ i ∈ l, (st.nodes i).inEdge ≠ some eid) →
      anyInputNotReady (clearReady st eid) l = anyInputNotReady st l := by
  intro l
  induction l with
  | nil => intro _; rfl
  | cons nid rest ih =>
    intro h
    have hne := h nid (List.mem_cons_self _ _)
    have htail := ih (fun i hi => h i (List.mem_cons_of_mem _ hi))
    show ((match (st.nodes nid).inEdge with
          | some f => !((clearReady st eid).edges f).outputsReady
          | none => false) || anyInputNotReady (clearReady st eid) rest) =
        anyInputNotReady st (nid :: rest)
    rw [htail, anyInputNotReady_cons st nid rest]
    congr 1
    cases hie : (st.nodes nid).inEdge with
    | none => rfl
    | some f =>
      have hfne : f ≠ eid := fun hf => hne (hf ▸ hie)
      show (!((clearReady st eid).edges f).outputsReady) =
        (!(st.edges f).outputsReady)
      rw [edges_clearReady_ne st eid f hfne]

/-- A straight-line run of the input loop: when every input already has
known status (no fresh stats, hence no recursion) and none is produced
by the scanned edge itself, the loop computes the pure fold and, at
most, clears the edge's readiness. -/
theorem scanInputs_straight (ctx : ScanCtx) (eid : Nat) :
    ∀ (l : List Nat) (fuel idx : Nat) (dirty : Bool) (mri : Option Nat)
      (st : ScanState),
      l.length ≤ fuel →
      (∀ i ∈ l, (st.nodes i).statusKnown = true) →
      (∀ i ∈ l, (st.nodes i).inEdge ≠ some eid) →
      scanInputs ctx fuel eid l idx dirty mri st =
        some { ok := true, err := "",
               dirty := (pureScanFold st eid l idx dirty mri).1,
               mri := (pureScanFold st eid l idx dirty mri).2,
               st := if anyInputNotReady st l then clearReady st eid else st } := by
  intro l
  induction l with
  | nil =>
    intro fuel idx dirty mri st _ _ _
    cases fuel <;> rfl
  | cons nid rest ih =>
    intro fuel idx dirty mri st hfuel hknown hinedge
    cases fuel with
    | zero => simp at hfuel
    | succ fuel =>
      have hfuel2 : rest.length ≤ fuel := by
        simpa using Nat.le_of_succ_le_succ hfuel
      have hknown2 : ∀ i ∈ rest, (st.nodes i).statusKnown = true :=
        fun i hi => hknown i (List.mem_cons_of_mem _ hi)
      have hinedge2 : ∀ i ∈ rest, (st.nodes i).inEdge ≠ some eid :=
        fun i hi => hinedge i (List.mem_cons_of_mem _ hi)
      have hk := hknown nid (List.mem_cons_self _ _)
      have hne := hinedge nid (List.mem_cons_self _ _)
      have hstat : statIfNecessary ctx st nid = (false, st) := by
        rw [statIfNecessary, if_pos hk]
      have hrest : ∀ (d : Bool) (m : Option Nat),
          scanInputs ctx fuel eid rest (idx + 1) d m st =
            some { ok := true, err := "",
                   dirty := (pureScanFold st eid rest (idx + 1) d m).1,
                   mri := (pureScanFold st eid rest (idx + 1) d m).2,
                   st := if anyInputNotReady st rest then clearReady st eid
                         else st } :=
        fun d m => ih fuel (idx + 1) d m st hfuel2 hknown2 hinedge2
      rw [scanInputs, hstat]
      simp only [Bool.false_eq_true, if_false]
      cases hie : (st.nodes nid).inEdge with
      | none =>
        simp only [hie]
        rw [hrest]
        rw [pureScanFold_cons, anyInputNotReady_cons_src st nid rest hie]
        rfl
      | some f =>
        have hf : f ≠ eid := fun hf => hne (hf ▸ hie)
        simp only [hie]
        by_cases hready : (st.edges f).outputsReady = true
        · simp only [hready, Bool.not_true, Bool.false_eq_true, if_false]
          rw [hrest]
          rw [pureScanFold_cons,
            anyInputNotReady_cons_edge st nid rest f hie, hready]
          rfl
        · have hready2 : (st.edges f).outputsReady = false := by
            simpa using hready
          simp only [hready2, Bool.not_false, if_true]
          have hrestC : ∀ (d : Bool) (m : Option Nat),
              scanInputs ctx fuel eid rest (idx + 1) d m (clearReady st eid) =
                some { ok := true, err := "",
                       dirty :=
                         (pureScanFold (clearReady st eid) eid rest (idx + 1) d m).1,
                       mri :=
                         (pureScanFold (clearReady st eid) eid rest (idx + 1) d m).2,
                       st := if anyInputNotReady (clearReady st eid) rest
                             then clearReady (clearReady st eid) eid
                             else clearReady st eid } :=
            fun d m => ih fuel (idx + 1) d m (clearReady st eid) hfuel2 hknown2 hinedge2
          rw [show st.setEdge eid { st.edges eid with outputsReady := false } =
            clearReady st eid from rfl]
          rw [hrestC]
          rw [pureScanFold_clearReady,
            anyInputNotReady_clearReady st eid rest hinedge2, clearReady_idem,
            ite_self]
          rw [pureScanFold_cons,
            anyInputNotReady_cons_edge st nid rest f hie, hready2]
          rw [isOrderOnly_clearReady]
          rfl

theorem scanStep_fst_true (st : ScanState) (eid nid idx : Nat) (m : Option Nat) :
    (scanStep st eid nid idx true m).1 = true := by
  unfold scanStep
  repeat' split
  all_goals rfl

theorem nodes_setNode_self (st : ScanState) (i : Nat) (d : NodeData) :
    (st.setNode i d).nodes i = d := by
  simp [ScanState.setNode]

theorem nodes_setNode_ne (st : ScanState) (i : Nat) (d : NodeData) (j : Nat)
    (h : j ≠ i) : (st.setNode i d).nodes j = st.nodes j := by
  simp [ScanState.setNode, h]

theorem pureScanFold_fst_true (st : ScanState) (eid : Nat) :
    ∀ (l : List Nat) (idx : Nat) (m : Option Nat),
      (pureScanFold st eid l idx true m).1 = true := by
  intro l
  induction l with
  | nil => intro idx m; rfl
  | cons nid rest ih =>
    intro idx m
    rw [pureScanFold_cons, scanStep_fst_true st eid nid idx m]
    exact ih (idx + 1) _

theorem markOutputs_cons (ctx : ScanCtx) (o : Nat) (os : List Nat) (d : Bool)
    (st : ScanState) :
    markOutputs ctx (o :: os) d st =
      markOutputs ctx os d
        (if d then ((statIfNecessary ctx st o).2).setNode o
            { ((statIfNecessary ctx st o).2).nodes o with dirty := true }
          else (statIfNecessary ctx st o).2) := rfl

theorem edges_statIfNecessary (ctx : ScanCtx) (st : ScanState) (i : Nat) :
    ((statIfNecessary ctx st i).2).edges = st.edges := by
  unfold statIfNecessary statNode ScanState.setNode
  split <;> rfl

theorem dirty_statIfNecessary (ctx : ScanCtx) (st : ScanState) (i j : Nat) :
    (((statIfNecessary ctx st i).2).nodes j).dirty = (st.nodes j).dirty := by
  unfold statIfNecessary statNode ScanState.setNode
  split
  · rfl
  · by_cases hj : j = i <;> simp [hj]

theorem markOutputs_edges (ctx : ScanCtx) :
    ∀ (l : List Nat) (d : Bool) (st : ScanState),
      (markOutputs ctx l d st).edges = st.edges := by
  intro l
  induction l with
  | nil => intro d st; rfl
  | cons o os ih =>
    intro d st
    rw [markOutputs_cons, ih]
    split
    · rw [edges_setNode, edges_statIfNecessary]
    · rw [edges_statIfNecessary]

theorem markOutputs_nodes_dirty_mono (ctx : ScanCtx) :
    ∀ (l : List Nat) (d : Bool) (st : ScanState) (j : Nat),
      (st.nodes j).dirty = true →
      ((markOutputs ctx l d st).nodes j).dirty = true := by
  intro l
  induction l with
  | nil => intro d st j h; exact h
  | cons o os ih =>
    intro d st j h
    rw [markOutputs_cons]
    apply ih
    split
    · by_cases hj : j = o
      · rw [hj, nodes_setNode_self]
      · rw [nodes_setNode_ne _ _ _ _ hj, dirty_statIfNecessary]
        exact h
    · rw [dirty_statIfNecessary]
      exact h

theorem markOutputs_marks (ctx : ScanCtx) :
    ∀ (l : List Nat) (st : ScanState) (o : Nat), o ∈ l →
      ((markOutputs ctx l true st).nodes o).dirty = true := by
  intro l
  induction l with
  | nil => intro st o h; cases h
  | cons p ps ih =>
    intro st o h
    rw [markOutputs_cons]
    rcases List.mem_cons.mp h with rfl | hmem
    · apply markOutputs_nodes_dirty_mono
      show ((((statIfNecessary ctx st o).2).setNode o
          { ((statIfNecessary ctx st o).2).nodes o with
            dirty := true }).nodes o).dirty = true
      rw [nodes_setNode_self]
    · exact ih _ o hmem

/-- Every `some` result of the scanner with `ok = false` carries a
non-empty error message: a fatal failure is exactly a failure with a
message (mutual induction on the fuel). -/
theorem scan_err_nonempty :
    ∀ fuel : Nat,
      (∀ (ctx : ScanCtx) (eid : Nat) (st : ScanState) (r : ScanRes),
         recomputeDirty ctx fuel eid st = some r → r.ok = false → r.err ≠ "") ∧
      (∀ (ctx : ScanCtx) (eid : Nat) (l : List Nat) (idx : Nat) (d : Bool)
         (m : Option Nat) (st : ScanState) (r : LoopRes),
         scanInputs ctx fuel eid l idx d m st = some r → r.ok = false →
           r.err ≠ "") := by
  intro fuel
  induction fuel with
  | zero =>
    constructor
    · intro ctx eid st r h hok
      rw [recomputeDirty] at h
      exact Option.noConfusion h
    · intro ctx eid l idx d m st r h hok
      cases l with
      | nil =>
        rw [scanInputs] at h
        cases h
        simp at hok
      | cons a as =>
        rw [scanInputs] at h
        exact Option.noConfusion h
  | succ fuel ih =>
    constructor
    · intro ctx eid st r h hok
      rw [recomputeDirty] at h
      split at h
      split at h
      · rename_i hguard
        cases h
        exact of_decide_eq_true ((Bool.and_eq_true _ _).mp hguard).2
      · simp only [] at h
        split at h
        · exact Option.noConfusion h
        · rename_i r0 hscan
          split at h
          · rename_i hr0
            cases h
            exact ih.2 ctx eid _ 0 _ none _ r0 hscan (by simpa using hr0)
          · split at h <;>
              (cases h
               simp at hok)
    · intro ctx eid l idx d m st r h hok
      cases l with
      | nil =>
        rw [scanInputs] at h
        cases h
        simp at hok
      | cons a as =>
        rw [scanInputs] at h
        split at h
        simp only [] at h
        split at h
        · exact Option.noConfusion h
        · rename_i stepv ok err stB heq
          split at h
          · rename_i hnok
            cases h
            have hokf : ok = false := by
              cases ok
              · rfl
              · simp at hnok
            subst hokf
            split at heq
            · split at heq
              · split at heq
                · exact Option.noConfusion heq
                · rename_i rr hrd
                  simp only [Option.some.injEq, Prod.mk.injEq] at heq
                  obtain ⟨hA, hB, hC⟩ := heq
                  rw [← hB]
                  exact ih.1 ctx _ _ rr hrd hA
              · simp only [Option.some.injEq, Prod.mk.injEq] at heq
                exact absurd heq.1 (by decide)
            · simp only [Option.some.injEq, Prod.mk.injEq] at heq
              exact absurd heq.1 (by decide)
          · exact ih.2 _ _ _ _ _ _ _ r h hok

theorem setEdge_setEdge (st : ScanState) (i : Nat) (d d' : EdgeData) :
    (st.setEdge i d).setEdge i d' = st.setEdge i d' := by
  unfold ScanState.setEdge
  refine ScanState.ext rfl rfl rfl ?_ rfl
  funext j
  by_cases hj : j = i <;> simp [hj]

theorem ite_clearReady_depsMissing (st3 : ScanState) (eid : Nat) (b : Bool) :
    (((if b = true then clearReady st3 eid else st3)).edges eid).depsMissing =
      (st3.edges eid).depsMissing := by
  split
  · rw [edges_clearReady_self]
  · rfl

theorem ite_clearReady_outputs (st3 : ScanState) (eid : Nat) (b : Bool) :
    (((if b = true then clearReady st3 eid else st3)).edges eid).outputs =
      (st3.edges eid).outputs := by
  split
  · rw [edges_clearReady_self]
  · rfl

theorem markFinal_depsMissing (ctx : ScanCtx) (RST : ScanState) (eid : Nat)
    (b : Bool) (h : (RST.edges eid).depsMissing = true) :
    ((if b = true then
        (markOutputs ctx ((RST.edges eid)).outputs true RST).setEdge eid
          { (markOutputs ctx ((RST.edges eid)).outputs true RST).edges eid with
            outputsReady := false }
      else markOutputs ctx ((RST.edges eid)).outputs true RST).edges
        eid).depsMissing = true := by
  split
  · rw [edges_setEdge_self]
    show ((markOutputs ctx (RST.edges eid).outputs true RST).edges
      eid).depsMissing = true
    rw [markOutputs_edges]
    exact h
  · rw [markOutputs_edges]
    exact h

theorem markFinal_marks (ctx : ScanCtx) (RST : ScanState) (eid : Nat) (b : Bool)
    (outs : List Nat) (houts : (RST.edges eid).outputs = outs) :
    ∀ o ∈ outs,
      ((if b = true then
          (markOutputs ctx ((RST.edges eid)).outputs true RST).setEdge eid
            { (markOutputs ctx ((RST.edges eid)).outputs true RST).edges eid with
              outputsReady := false }
        else markOutputs ctx ((RST.edges eid)).outputs true RST).nodes o).dirty =
        true := by
  intro o ho
  have ho2 : o ∈ (RST.edges eid).outputs := by rw [houts]; exact ho
  split
  · rw [nodes_setEdge]
    exact markOutputs_marks ctx _ RST o ho2
  · exact markOutputs_marks ctx _ RST o ho2

/-- A recoverable `LoadDeps` failure (false with an empty message) makes
`RecomputeDirty` mark the edge `deps_missing_`, mark every output dirty
and still succeed — provided every input is already stat'ed, none is
produced by the scanned edge itself, and the fuel covers the input
list. -/
theorem recomputeDirty_depsMissing (ctx : ScanCtx) (st : ScanState) (eid fuel : Nat)
    (hld : loadDeps ctx
        (st.setEdge eid
          { st.edges eid with outputsReady := true, depsMissing := false }) eid =
      (false, "",
        st.setEdge eid
          { st.edges eid with outputsReady := true, depsMissing := false }))
    (hknown : ∀ i ∈ (st.edges eid).inputs, (st.nodes i).statusKnown = true)
    (hinedge : ∀ i ∈ (st.edges eid).inputs, (st.nodes i).inEdge ≠ some eid)
    (hfuel : (st.edges eid).inputs.length ≤ fuel) :
    ∃ res, recomputeDirty ctx (fuel + 1) eid st = some res ∧ res.ok = true ∧
      (res.st.edges eid).depsMissing = true ∧
      ∀ o ∈ (st.edges eid).outputs, (res.st.nodes o).dirty = true := by
  have hscan := scanInputs_straight ctx eid ((st.edges eid).inputs) fuel 0 true none
    (st.setEdge eid { st.edges eid with outputsReady := true, depsMissing := true })
    hfuel hknown hinedge
  rw [recomputeDirty]
  simp only []
  rw [hld]
  simp only [Bool.not_false, ne_eq, String.reduceEq, decide_not, decide_true_eq_true,
    Bool.not_true, Bool.false_eq_true, if_false, if_true, Bool.true_and,
    Bool.and_false, edges_setEdge_self, setEdge_setEdge]
  rw [hscan]
  simp only [pureScanFold_fst_true, Bool.not_true, Bool.false_eq_true, if_false,
    Bool.true_and]
  refine ⟨_, rfl, rfl, ?_, ?_⟩
  · exact markFinal_depsMissing ctx _ eid _
      (by rw [ite_clearReady_depsMissing, edges_setEdge_self])
  · exact markFinal_marks ctx _ eid _ _
      (by rw [ite_clearReady_outputs, edges_setEdge_self])

/-! ## Claim C5: missing dependency information is recoverable -/

/--
C5.  Missing dependency information is recoverable, not fatal: (a) an
absent-or-empty depfile, (b) an absent deps-log entry and (c) a
deps-log entry whose stored mtime is older than the output's each make
`LoadDeps` return false with an empty error string and an unchanged
state; (d) `RecomputeDirty` then marks the edge `deps_missing_`, marks
every output dirty and still succeeds (under the straight-line
hypotheses: the inputs are already stat'ed, none is produced by the
edge itself, and the fuel covers the input list); and (e) a fatal
result (`ok = false`) always carries a non-empty error message.
-/
theorem missing_deps_recoverable (ctx : ScanCtx) (st : ScanState) (eid : Nat) :
    ((st.edges eid).depsType = "" → (st.edges eid).depfile ≠ "" →
      ctx.diskRead (st.edges eid).depfile = ("", "") →
      loadDeps ctx st eid = (false, "", st)) ∧
    ((st.edges eid).depsType ≠ "" →
      ctx.depsLog ((st.edges eid).outputs.headD 0) = none →
      loadDeps ctx st eid = (false, "", st)) ∧
    (∀ deps : DepsInfo, (st.edges eid).depsType ≠ "" →
      ctx.depsLog ((st.edges eid).outputs.headD 0) = some deps →
      (st.nodes ((st.edges eid).outputs.headD 0)).mtime > deps.mtime →
      loadDeps ctx st eid = (false, "", st)) ∧
    (∀ fuel : Nat,
      loadDeps ctx
          (st.setEdge eid
            { st.edges eid with outputsReady := true, depsMissing := false }) eid =
        (false, "",
          st.setEdge eid
            { st.edges eid with outputsReady := true, depsMissing := false }) →
      (∀ i ∈ (st.edges eid).inputs, (st.nodes i).statusKnown = true) →
      (∀ i ∈ (st.edges eid).inputs, (st.nodes i).inEdge ≠ some eid) →
      (st.edges eid).inputs.length ≤ fuel →
      ∃ res, recomputeDirty ctx (fuel + 1) eid st = some res ∧ res.ok = true ∧
        (res.st.edges eid).depsMissing = true ∧
        ∀ o ∈ (st.edges eid).outputs, (res.st.nodes o).dirty = true) ∧
    (∀ (fuel : Nat) (r : ScanRes), recomputeDirty ctx fuel eid st = some r →
      r.ok = false → r.err ≠ "") := by
  refine ⟨?_, ?_, ?_, ?_, ?_⟩
  · intro hdt hdf hread
    rw [loadDeps, if_neg (by simp [hdt]), if_pos hdf, loadDepFile, hread]
    simp
  · intro hdt hlog
    rw [loadDeps, if_pos hdt, loadDepsFromLog, hlog]
  · intro deps hdt hlog hm
    rw [loadDeps, if_pos hdt, loadDepsFromLog]
    simp only [hlog]
    rw [if_pos hm]
  · exact fun fuel hld hk hie hf =>
      recomputeDirty_depsMissing ctx st eid fuel hld hk hie hf
  · exact fun fuel r h hok => (scan_err_nonempty fuel).1 ctx eid st r h hok

/-- Witness for C5: the missing-depfile edge, the deps-log edge with an
absent entry, the stale deps-log entry, the full recoverable
`RecomputeDirty` run, and the fatal parse error with its non-empty
message. -/
theorem missing_deps_recoverable_witness :
    loadDeps (mkCtx none) depSt 0 = (false, "", depSt) ∧
    loadDeps (mkCtx none) depLogSt 0 = (false, "", depLogSt) ∧
    loadDeps staleCtx depLogSt 0 = (false, "", depLogSt) ∧
    (∃ res, recomputeDirty (mkCtx none) 2 0 depSt = some res ∧ res.ok = true ∧
      (res.st.edges 0).depsMissing = true ∧
      ∀ o ∈ (depSt.edges 0).outputs, (res.st.nodes o).dirty = true) ∧
    ({ ok := false, err := "d.d: bad", st := depResetSt } : ScanRes).err ≠ "" := by
  refine ⟨?_, ?_, ?_, ?_, ?_⟩
  · exact (missing_deps_recoverable (mkCtx none) depSt 0).1 rfl (by decide) rfl
  · exact (missing_deps_recoverable (mkCtx none) depLogSt 0).2.1 (by decide) rfl
  · exact (missing_deps_recoverable staleCtx depLogSt 0).2.2.1
      { mtime := 2, nodes := [1] } (by decide) rfl (by decide)
  · exact (missing_deps_recoverable (mkCtx none) depSt 0).2.2.2.1 1 rfl
      (by decide) (by decide) (by decide)
  · exact (missing_deps_recoverable badParseCtx depSt 0).2.2.2.2 1
      { ok := false, err := "d.d: bad", st := depResetSt } rfl rfl

/-! ## Claim C7: RecomputeDirty is not idempotent as claimed -/

theorem nodes_statIfNecessary_ne (ctx : ScanCtx) (st : ScanState) (i j : Nat)
    (h : j ≠ i) : ((statIfNecessary ctx st i).2).nodes j = st.nodes j := by
  unfold statIfNecessary statNode
  split
  · rfl
  · exact nodes_setNode_ne _ _ _ _ h

theorem markOutputs_nodes_ne (ctx : ScanCtx) :
    ∀ (l : List Nat) (d : Bool) (st : ScanState) (j : Nat), j ∉ l →
      (markOutputs ctx l d st).nodes j = st.nodes j := by
  intro l
  induction l with
  | nil => intro d st j h; rfl
  | cons o os ih =>
    intro d st j h
    have hjo : j ≠ o := fun hc => h (hc ▸ List.mem_cons_self o os)
    have hjos : j ∉ os := fun hc => h (List.mem_cons_of_mem _ hc)
    rw [markOutputs_cons, ih _ _ _ hjos]
    split
    · rw [nodes_setNode_ne _ _ _ _ hjo]
      exact nodes_statIfNecessary_ne ctx st o j hjo
    · exact nodes_statIfNecessary_ne ctx st o j hjo

theorem dmSt3_nodes (st : ScanState) (eid : Nat) :
    (dmSt3 st eid).nodes = st.nodes := rfl

theorem dmSt3_edges_self (st : ScanState) (eid : Nat) :
    (dmSt3 st eid).edges eid =
      { st.edges eid with outputsReady := true, depsMissing := true } :=
  edges_setEdge_self st eid _

theorem dmSt3_edges_ne (st : ScanState) (eid f : Nat) (h : f ≠ eid) :
    (dmSt3 st eid).edges f = st.edges f :=
  edges_setEdge_ne st eid _ f h

theorem dmRst_nodes (st : ScanState) (eid : Nat) :
    (dmRst st eid).nodes = st.nodes := by
  unfold dmRst
  split
  · rfl
  · rfl

theorem dmRst_edges_eid (st : ScanState) (eid : Nat) :
    ∃ rb : Bool, (dmRst st eid).edges eid =
      { st.edges eid with outputsReady := rb, depsMissing := true } := by
  unfold dmRst
  split
  · exact ⟨false, by rw [edges_clearReady_self, dmSt3_edges_self]⟩
  · exact ⟨true, dmSt3_edges_self st eid⟩

theorem dmRst_edges_ne (st : ScanState) (eid f : Nat) (h : f ≠ eid) :
    (dmRst st eid).edges f = st.edges f := by
  unfold dmRst
  split
  · rw [edges_clearReady_ne _ _ _ h, dmSt3_edges_ne _ _ _ h]
  · exact dmSt3_edges_ne st eid f h

theorem dmRst_outputs (st : ScanState) (eid : Nat) :
    ((dmRst st eid).edges eid).outputs = (st.edges eid).outputs := by
  obtain ⟨rb, hrb⟩ := dmRst_edges_eid st eid
  rw [hrb]

theorem dmSt5_edges (ctx : ScanCtx) (st : ScanState) (eid : Nat) :
    (dmSt5 ctx st eid).edges = (dmRst st eid).edges :=
  markOutputs_edges ctx _ _ _

theorem dmSt5_nodes_ne (ctx : ScanCtx) (st : ScanState) (eid n : Nat)
    (hn : n ∉ (st.edges eid).outputs) :
    (dmSt5 ctx st eid).nodes n = st.nodes n := by
  unfold dmSt5
  rw [dmRst_outputs, markOutputs_nodes_ne _ _ _ _ _ hn, dmRst_nodes]

theorem dmSt5_marks (ctx : ScanCtx) (st : ScanState) (eid o : Nat)
    (ho : o ∈ (st.edges eid).outputs) :
    ((dmSt5 ctx st eid).nodes o).dirty = true := by
  unfold dmSt5
  rw [dmRst_outputs]
  exact markOutputs_marks ctx _ _ o ho

theorem depsMissingRes_edges_eid (ctx : ScanCtx) (st : ScanState) (eid : Nat) :
    ∃ b : Bool, (depsMissingRes ctx st eid).edges eid =
      { st.edges eid with outputsReady := b, depsMissing := true } := by
  obtain ⟨rb, hrb⟩ := dmRst_edges_eid st eid
  unfold depsMissingRes
  split
  · exact ⟨false, by rw [edges_clearReady_self, dmSt5_edges, hrb]⟩
  · exact ⟨rb, by rw [dmSt5_edges, hrb]⟩

theorem depsMissingRes_edges_ne (ctx : ScanCtx) (st : ScanState) (eid f : Nat)
    (h : f ≠ eid) : (depsMissingRes ctx st eid).edges f = st.edges f := by
  unfold depsMissingRes
  split
  · rw [edges_clearReady_ne _ _ _ h, dmSt5_edges, dmRst_edges_ne _ _ _ h]
  · rw [dmSt5_edges, dmRst_edges_ne _ _ _ h]

theorem depsMissingRes_nodes_ne (ctx : ScanCtx) (st : ScanState) (eid n : Nat)
    (hn : n ∉ (st.edges eid).outputs) :
    (depsMissingRes ctx st eid).nodes n = st.nodes n := by
  unfold depsMissingRes
  split
  · rw [nodes_clearReady]
    exact dmSt5_nodes_ne ctx st eid n hn
  · exact dmSt5_nodes_ne ctx st eid n hn

theorem depsMissingRes_marks (ctx : ScanCtx) (st : ScanState) (eid o : Nat)
    (ho : o ∈ (st.edges eid).outputs) :
    ((depsMissingRes ctx st eid).nodes o).dirty = true := by
  unfold depsMissingRes
  split
  · rw [nodes_clearReady]
    exact dmSt5_marks ctx st eid o ho
  · exact dmSt5_marks ctx st eid o ho

theorem depsMissingRes_depsMissing (ctx : ScanCtx) (st : ScanState) (eid : Nat) :
    ((depsMissingRes ctx st eid).edges eid).depsMissing = true := by
  obtain ⟨b, hb⟩ := depsMissingRes_edges_eid ctx st eid
  rw [hb]

theorem depsMissingRes_outputsReady (ctx : ScanCtx) (st : ScanState) (eid : Nat)
    (hnontriv : ((st.edges eid).isPhony && (st.edges eid).inputs.isEmpty) = false) :
    ((depsMissingRes ctx st eid).edges eid).outputsReady = false := by
  obtain ⟨rb, hrb⟩ := dmRst_edges_eid st eid
  have hc : (!(((dmSt5 ctx st eid).edges eid).isPhony &&
      ((dmSt5 ctx st eid).edges eid).inputs.isEmpty)) = true := by
    rw [dmSt5_edges, hrb]
    simp only [hnontriv]
    rfl
  unfold depsMissingRes
  rw [if_pos hc, edges_clearReady_self]

/-- A recoverable-missing-deps `RecomputeDirty` run on a fully stat'ed
input list computes exactly the closed form `depsMissingRes`. -/
theorem recomputeDirty_depsMissing_eq (ctx : ScanCtx) (st : ScanState)
    (eid fuel : Nat)
    (hld : loadDeps ctx
        (st.setEdge eid
          { st.edges eid with outputsReady := true, depsMissing := false }) eid =
      (false, "",
        st.setEdge eid
          { st.edges eid with outputsReady := true, depsMissing := false }))
    (hknown : ∀ i ∈ (st.edges eid).inputs, (st.nodes i).statusKnown = true)
    (hinedge : ∀ i ∈ (st.edges eid).inputs, (st.nodes i).inEdge ≠ some eid)
    (hfuel : (st.edges eid).inputs.length ≤ fuel) :
    recomputeDirty ctx (fuel + 1) eid st =
      some { ok := true, err := "", st := depsMissingRes ctx st eid } := by
  have hscan := scanInputs_straight ctx eid ((st.edges eid).inputs) fuel 0 true none
    (st.setEdge eid { st.edges eid with outputsReady := true, depsMissing := true })
    hfuel hknown hinedge
  rw [recomputeDirty]
  simp only []
  rw [hld]
  simp only [Bool.not_false, ne_eq, String.reduceEq, decide_not, decide_true_eq_true,
    Bool.not_true, Bool.false_eq_true, if_false, if_true, Bool.true_and,
    Bool.and_false, edges_setEdge_self, setEdge_setEdge]
  rw [hscan]
  simp only [pureScanFold_fst_true, Bool.not_true, Bool.false_eq_true, if_false,
    Bool.true_and]
  simp only [depsMissingRes, dmSt5, dmRst, dmSt3]
  rfl

/--
C7 (counterexample).  Two consecutive `recompute_dirty` calls with no
intervening disk change need not produce the same flags: on an edge
with a `deps` attribute whose output has never been stat'ed, the first
call reads the output's mtime as −1, so the deps-log entry does not
look stale and the scan succeeds with `deps_missing_ = false`; the call
itself stats the output (mtime 5 > the log's 2), so the second call
finds the entry stale, flips `deps_missing_` to true, marks the output
dirty and clears `outputs_ready_`.
-/
theorem recompute_dirty_not_idempotent :
    ((recomputeDirty flipCtx 1 0 flipSt).map
        (fun r => ((r.st.edges 0).depsMissing, (r.st.edges 0).outputsReady,
          (r.st.nodes 0).dirty, r.ok))) = some (false, true, false, true) ∧
    ((recomputeDirty flipCtx 1 0 flipSt).bind
        (fun r1 => (recomputeDirty flipCtx 1 0 r1.st).map
          (fun r2 => ((r2.st.edges 0).depsMissing, (r2.st.edges 0).outputsReady,
            (r2.st.nodes 0).dirty, r2.ok)))) = some (true, false, true, true) := by
  constructor
  · decide
  · decide

/--
C7 (amended).  Two consecutive `recompute_dirty(e)` calls with no
intervening disk change produce the same resulting flags (edge
`outputs_ready_`, edge `deps_missing_`, and every node's dirty bit)
when both calls take the same recoverable missing-deps branch and the
scan is straight-line: `LoadDeps` recoverably fails on both runs'
reset states, every input is already stat'ed, none is produced by the
edge itself or appears among its outputs, the fuel covers the input
list, and the edge is non-trivial (not an input-less phony edge).
-/
theorem recompute_dirty_idem_flags (ctx : ScanCtx) (st : ScanState)
    (eid fuel : Nat)
    (hld1 : loadDeps ctx
        (st.setEdge eid
          { st.edges eid with outputsReady := true, depsMissing := false }) eid =
      (false, "",
        st.setEdge eid
          { st.edges eid with outputsReady := true, depsMissing := false }))
    (hld2 : loadDeps ctx
        ((depsMissingRes ctx st eid).setEdge eid
          { (depsMissingRes ctx st eid).edges eid with
            outputsReady := true, depsMissing := false }) eid =
      (false, "",
        (depsMissingRes ctx st eid).setEdge eid
          { (depsMissingRes ctx st eid).edges eid with
            outputsReady := true, depsMissing := false }))
    (hknown : ∀ i ∈ (st.edges eid).inputs, (st.nodes i).statusKnown = true)
    (hinedge : ∀ i ∈ (st.edges eid).inputs, (st.nodes i).inEdge ≠ some eid)
    (hdisj : ∀ i ∈ (st.edges eid).inputs, i ∉ (st.edges eid).outputs)
    (hfuel : (st.edges eid).inputs.length ≤ fuel)
    (hnontriv : ((st.edges eid).isPhony && (st.edges eid).inputs.isEmpty) = false) :
    ∃ r1 r2 : ScanRes,
      recomputeDirty ctx (fuel + 1) eid st = some r1 ∧
      recomputeDirty ctx (fuel + 1) eid r1.st = some r2 ∧
      (r2.st.edges eid).depsMissing = (r1.st.edges eid).depsMissing ∧
      (r2.st.edges eid).outputsReady = (r1.st.edges eid).outputsReady ∧
      ∀ n, (r2.st.nodes n).dirty = (r1.st.nodes n).dirty := by
  obtain ⟨b1, hb1⟩ := depsMissingRes_edges_eid ctx st eid
  have hinputs2 : ((depsMissingRes ctx st eid).edges eid).inputs =
      (st.edges eid).inputs := by rw [hb1]
  have houts2 : ((depsMissingRes ctx st eid).edges eid).outputs =
      (st.edges eid).outputs := by rw [hb1]
  have hnodes2 : ∀ i ∈ (st.edges eid).inputs,
      (depsMissingRes ctx st eid).nodes i = st.nodes i :=
    fun i hi => depsMissingRes_nodes_ne ctx st eid i (hdisj i hi)
  have h1 := recomputeDirty_depsMissing_eq ctx st eid fuel hld1 hknown hinedge hfuel
  have hknown2 : ∀ i ∈ ((depsMissingRes ctx st eid).edges eid).inputs,
      ((depsMissingRes ctx st eid).nodes i).statusKnown = true := by
    rw [hinputs2]
    intro i hi
    rw [hnodes2 i hi]
    exact hknown i hi
  have hinedge2 : ∀ i ∈ ((depsMissingRes ctx st eid).edges eid).inputs,
      ((depsMissingRes ctx st eid).nodes i).inEdge ≠ some eid := by
    rw [hinputs2]
    intro i hi
    rw [hnodes2 i hi]
    exact hinedge i hi
  have hfuel2 : ((depsMissingRes ctx st eid).edges eid).inputs.length ≤ fuel := by
    rw [hinputs2]
    exact hfuel
  have h2 := recomputeDirty_depsMissing_eq ctx (depsMissingRes ctx st eid) eid fuel
    hld2 hknown2 hinedge2 hfuel2
  have hnontriv2 : (((depsMissingRes ctx st eid).edges eid).isPhony &&
      ((depsMissingRes ctx st eid).edges eid).inputs.isEmpty) = false := by
    rw [hb1]
    exact hnontriv
  refine ⟨_, _, h1, h2, ?_, ?_, ?_⟩
  · rw [depsMissingRes_depsMissing, depsMissingRes_depsMissing]
  · rw [depsMissingRes_outputsReady ctx _ eid hnontriv2,
      depsMissingRes_outputsReady ctx st eid hnontriv]
  · intro n
    by_cases hmem : n ∈ (st.edges eid).outputs
    · rw [depsMissingRes_marks ctx _ eid n (by rw [houts2]; exact hmem),
        depsMissingRes_marks ctx st eid n hmem]
    · rw [depsMissingRes_nodes_ne ctx _ eid n (by rw [houts2]; exact hmem)]

/-- Witness for the amended C7 at the missing-depfile edge: both runs
recoverably miss their deps and produce identical flags. -/
theorem recompute_dirty_idem_flags_witness :
    ∃ r1 r2 : ScanRes,
      recomputeDirty (mkCtx none) 2 0 depSt = some r1 ∧
      recomputeDirty (mkCtx none) 2 0 r1.st = some r2 ∧
      (r2.st.edges 0).depsMissing = (r1.st.edges 0).depsMissing ∧
      (r2.st.edges 0).outputsReady = (r1.st.edges 0).outputsReady ∧
      ∀ n, (r2.st.nodes n).dirty = (r1.st.nodes n).dirty :=
  recompute_dirty_idem_flags (mkCtx none) depSt 0 1 rfl rfl (by decide)
    (by decide) (by decide) (by decide) (by decide)

/-! ## Claim C9: CleanNode skips deps-missing edges -/

theorem outputsDirtyGo_cons (ctx : ScanCtx) (eid : Nat) (mri : Option Nat)
    (cmd : String) (o : Nat) (os : List Nat) (st : ScanState) :
    outputsDirtyGo ctx eid mri cmd (o :: os) st =
      (if recomputeOutputDirty ctx (((statIfNecessary ctx st o).2).edges eid)
          (mri.map (fun m => ((statIfNecessary ctx st o).2).nodes m)) cmd
          (((statIfNecessary ctx st o).2).nodes o) then
        (true, (statIfNecessary ctx st o).2)
      else outputsDirtyGo ctx eid mri cmd os ((statIfNecessary ctx st o).2)) := rfl

theorem outputsDirtyGo_edges (ctx : ScanCtx) (eid : Nat) (mri : Option Nat)
    (cmd : String) :
    ∀ (l : List Nat) (st : ScanState),
      ((outputsDirtyGo ctx eid mri cmd l st).2).edges = st.edges := by
  intro l
  induction l with
  | nil => intro st; rfl
  | cons o os ih =>
    intro st
    rw [outputsDirtyGo_cons]
    split
    · exact edges_statIfNecessary ctx st o
    · rw [ih, edges_statIfNecessary]

theorem outputsDirtyGo_dirty (ctx : ScanCtx) (eid : Nat) (mri : Option Nat)
    (cmd : String) :
    ∀ (l : List Nat) (st : ScanState) (j : Nat),
      (((outputsDirtyGo ctx eid mri cmd l st).2).nodes j).dirty =
        ((st.nodes j).dirty) := by
  intro l
  induction l with
  | nil => intro st j; rfl
  | cons o os ih =>
    intro st j
    rw [outputsDirtyGo_cons]
    split
    · exact dirty_statIfNecessary ctx st o j
    · rw [ih, dirty_statIfNecessary]

theorem find_set_ne (e e' : Nat) (b : Bool) (h : e' ≠ e) :
    ∀ l : List (Nat × Bool),
      ((l.map (fun p => if p.1 = e then (e, b) else p)).find?
          (fun p => p.1 = e')).map (fun p => p.2) =
        (l.find? (fun p => p.1 = e')).map (fun p => p.2) := by
  intro l
  induction l with
  | nil => rfl
  | cons hd tl ih =>
    rw [List.map_cons]
    by_cases hh : hd.1 = e
    · rw [List.find?_cons_of_neg _ (by simp [hh, Ne.symm h]),
        List.find?_cons_of_neg _ (by simp [hh, Ne.symm h, hh ▸ (Ne.symm h)])]
      exact ih
    · by_cases hh2 : hd.1 = e'
      · rw [List.find?_cons_of_pos _ (by rw [if_neg hh]; simp [hh2]),
          List.find?_cons_of_pos _ (by simp [hh2])]
        rw [if_neg hh]
      · rw [List.find?_cons_of_neg _ (by simp [hh, hh2]),
          List.find?_cons_of_neg _ (by simp [hh2])]
        exact ih

theorem wantLookup_wantSet_ne (ps : PlanState) (e e' : Nat) (b : Bool)
    (h : e' ≠ e) : wantLookup (wantSet ps e b) e' = wantLookup ps e' := by
  unfold wantLookup wantSet
  exact find_set_ne e e' b h ps.want

theorem recomputeOutputsDirtySt_edges (ctx : ScanCtx) (st : ScanState)
    (eid : Nat) (mri : Option Nat) :
    ((recomputeOutputsDirtySt ctx st eid mri).2).edges = st.edges :=
  outputsDirtyGo_edges ctx eid mri _ _ st

theorem recomputeOutputsDirtySt_dirty (ctx : ScanCtx) (st : ScanState)
    (eid : Nat) (mri : Option Nat) (j : Nat) :
    (((recomputeOutputsDirtySt ctx st eid mri).2).nodes j).dirty =
      ((st.nodes j).dirty) :=
  outputsDirtyGo_dirty ctx eid mri _ _ st j

theorem cleanNode_protects (ctx : ScanCtx) (eP : Nat) :
    ∀ fuel : Nat,
      (∀ (nid : Nat) (ps : PlanState) (st : ScanState)
         (res : PlanState × ScanState),
         cleanNode ctx fuel nid ps st = some res →
         (st.edges eP).depsMissing = true →
         res.2.edges = st.edges ∧
         (wantLookup ps eP = some true → wantLookup res.1 eP = some true) ∧
         (nid ∉ (st.edges eP).outputs →
          (∀ ej, ej ≠ eP → ∀ o ∈ (st.edges ej).outputs,
            o ∉ (st.edges eP).outputs) →
          ∀ o ∈ (st.edges eP).outputs,
            (res.2.nodes o).dirty = (st.nodes o).dirty)) ∧
      (∀ (l : List Nat) (ps : PlanState) (st : ScanState)
         (res : PlanState × ScanState),
         cleanEdges ctx fuel l ps st = some res →
         (st.edges eP).depsMissing = true →
         res.2.edges = st.edges ∧
         (wantLookup ps eP = some true → wantLookup res.1 eP = some true) ∧
         ((∀ ej, ej ≠ eP → ∀ o ∈ (st.edges ej).outputs,
            o ∉ (st.edges eP).outputs) →
          ∀ o ∈ (st.edges eP).outputs,
            (res.2.nodes o).dirty = (st.nodes o).dirty)) ∧
      (∀ (l : List Nat) (ps : PlanState) (st : ScanState)
         (res : PlanState × ScanState),
         cleanOutputs ctx fuel l ps st = some res →
         (st.edges eP).depsMissing = true →
         res.2.edges = st.edges ∧
         (wantLookup ps eP = some true → wantLookup res.1 eP = some true) ∧
         ((∀ x ∈ l, x ∉ (st.edges eP).outputs) →
          (∀ ej, ej ≠ eP → ∀ o ∈ (st.edges ej).outputs,
            o ∉ (st.edges eP).outputs) →
          ∀ o ∈ (st.edges eP).outputs,
            (res.2.nodes o).dirty = (st.nodes o).dirty)) := by
  intro fuel
  induction fuel with
  | zero =>
    refine ⟨?_, ?_, ?_⟩
    · intro nid ps st res h
      rw [cleanNode] at h
      exact Option.noConfusion h
    · intro l ps st res h hdm
      cases l with
      | nil =>
        rw [cleanEdges] at h
        cases h
        exact ⟨rfl, fun hw => hw, fun _ o _ => rfl⟩
      | cons a as =>
        rw [cleanEdges] at h
        exact Option.noConfusion h
    · intro l ps st res h hdm
      cases l with
      | nil =>
        rw [cleanOutputs] at h
        cases h
        exact ⟨rfl, fun hw => hw, fun _ _ o _ => rfl⟩
      | cons a as =>
        rw [cleanOutputs] at h
        exact Option.noConfusion h
  | succ fuel ih =>
    refine ⟨?_, ?_, ?_⟩
    · intro nid ps st res h hdm
      rw [cleanNode] at h
      simp only [] at h
      have hres := ih.2.1 _ _ _ _ h hdm
      refine ⟨hres.1, hres.2.1, ?_⟩
      intro hnid hdisj o ho
      rw [hres.2.2 hdisj o ho]
      exact congrArg NodeData.dirty
        (nodes_setNode_ne st nid _ o (fun hc => hnid (hc ▸ ho)))
    · intro l ps st res h hdm
      cases l with
      | nil =>
        rw [cleanEdges] at h
        cases h
        exact ⟨rfl, fun hw => hw, fun _ o _ => rfl⟩
      | cons ei rest =>
        rw [cleanEdges] at h
        split at h
        · -- not wanted: plain recursion
          exact ih.2.1 _ _ _ _ h hdm
        · split at h
          · -- deps missing: skipped
            exact ih.2.1 _ _ _ _ h hdm
          · rename_i hwant hdmei
            have hne : ei ≠ eP := fun hc => hdmei (hc ▸ hdm)
            simp only [] at h
            split at h
            · -- all non-order-only inputs clean
              split at h
              · -- outputs no longer dirty: demote
                split at h
                · exact Option.noConfusion h
                · rename_i psD stD hcO
                  obtain ⟨hOa, hOb, hOc⟩ := ih.2.2 _ _ _ _ hcO
                    (by rw [recomputeOutputsDirtySt_edges]; exact hdm)
                  have hOa2 : stD.edges = st.edges := by
                    have hOa3 : stD.edges =
                        ((recomputeOutputsDirtySt ctx st ei
                          (firstMaxMtime st
                            (List.take
                              ((st.edges ei).inputs.length -
                                (st.edges ei).orderOnlyDeps)
                              (st.edges ei).inputs))).2).edges := hOa
                    rw [hOa3, recomputeOutputsDirtySt_edges]
                  obtain ⟨hEa, hEb, hEc⟩ := ih.2.1 _ _ _ _ h
                    (by rw [show (stD.edges eP).depsMissing =
                        ((st.edges eP)).depsMissing from by rw [hOa2]]
                        exact hdm)
                  refine ⟨by rw [hEa, hOa2], ?_, ?_⟩
                  · intro hw
                    apply hEb
                    split
                    · exact (wantLookup_wantSet_ne psD ei eP false
                        (Ne.symm hne)).trans (hOb hw)
                    · exact (wantLookup_wantSet_ne psD ei eP false
                        (Ne.symm hne)).trans (hOb hw)
                  · intro hdisj o ho
                    have hdisjD : ∀ ej, ej ≠ eP →
                        ∀ o2 ∈ (stD.edges ej).outputs,
                          o2 ∉ (stD.edges eP).outputs := by
                      rw [hOa2]
                      exact hdisj
                    have hoD : o ∈ (stD.edges eP).outputs := by
                      rw [hOa2]
                      exact ho
                    rw [hEc hdisjD o hoD]
                    exact (hOc
                        (by rw [recomputeOutputsDirtySt_edges]; exact hdisj ei hne)
                        (by rw [recomputeOutputsDirtySt_edges]; exact hdisj)
                        o (by rw [recomputeOutputsDirtySt_edges]; exact ho)).trans
                      (recomputeOutputsDirtySt_dirty ctx st ei _ o)
              · -- outputs still dirty: recursion on the stat'ed state
                have hdm2 : (((recomputeOutputsDirtySt ctx st ei
                    (firstMaxMtime st ((st.edges ei).inputs.take
                      ((st.edges ei).inputs.length - (st.edges ei).orderOnlyDeps)))).2).edges
                    eP).depsMissing = true := by
                  rw [recomputeOutputsDirtySt_edges]
                  exact hdm
                have h2 := ih.2.1 _ _ _ _ h hdm2
                refine ⟨by rw [h2.1, recomputeOutputsDirtySt_edges], h2.2.1, ?_⟩
                intro hdisj o ho
                rw [recomputeOutputsDirtySt_edges] at h2
                rw [h2.2.2 hdisj o ho, recomputeOutputsDirtySt_dirty]
            · -- inputs not all clean: plain recursion
              exact ih.2.1 _ _ _ _ h hdm
    · intro l ps st res h hdm
      cases l with
      | nil =>
        rw [cleanOutputs] at h
        cases h
        exact ⟨rfl, fun hw => hw, fun _ _ o _ => rfl⟩
      | cons a as =>
        rw [cleanOutputs] at h
        split at h
        · exact Option.noConfusion h
        · rename_i psx pr hcn
          obtain ⟨h1a, h1b, h1c⟩ := ih.1 _ _ _ _ hcn hdm
          have h1a2 : pr.edges = st.edges := h1a
          have h1b2 : wantLookup ps eP = some true →
              wantLookup psx eP = some true := h1b
          have h1c2 : a ∉ (st.edges eP).outputs →
              (∀ ej, ej ≠ eP → ∀ o ∈ (st.edges ej).outputs,
                o ∉ (st.edges eP).outputs) →
              ∀ o ∈ (st.edges eP).outputs,
                (pr.nodes o).dirty = (st.nodes o).dirty := h1c
          have hdm2 : (pr.edges eP).depsMissing = true := by
            rw [h1a2]
            exact hdm
          obtain ⟨h2a, h2b, h2c⟩ := ih.2.2 _ _ _ _ h hdm2
          refine ⟨by rw [h2a, h1a2], fun hw => h2b (h1b2 hw), ?_⟩
          intro hxl hdisj o ho
          have hxl2 : ∀ x ∈ as, x ∉ (pr.edges eP).outputs := by
            rw [h1a2]
            exact fun x hx => hxl x (List.mem_cons_of_mem _ hx)
          have hdisj2 : ∀ ej, ej ≠ eP → ∀ o2 ∈ (pr.edges ej).outputs,
              o2 ∉ (pr.edges eP).outputs := by
            rw [h1a2]
            exact hdisj
          have ho2 : o ∈ (pr.edges eP).outputs := by
            rw [h1a2]
            exact ho
          rw [h2c hxl2 hdisj2 o ho2]
          exact h1c2 (hxl a (List.mem_cons_self _ _)) hdisj o ho

/--
C9.  A wanted-true consumer edge whose `deps_missing_` flag is set is
never demoted or re-examined by `Plan::CleanNode`: the loop iteration
that reaches it just moves on, leaving the plan (want map, ready set,
`wanted_edges_`, `command_edges_`) and the graph exactly as they were;
after the whole recursive call its want entry still maps to true, the
edges are unchanged, and the dirty bits of its outputs are preserved
(given that the cleaned node is not one of its outputs and no other
edge lists one of its outputs).
-/
theorem cleanNode_skips_deps_missing (ctx : ScanCtx) (eP : Nat) :
    (∀ (fuel : Nat) (rest : List Nat) (ps : PlanState) (st : ScanState),
      wantLookup ps eP = some true →
      (st.edges eP).depsMissing = true →
      cleanEdges ctx (fuel + 1) (eP :: rest) ps st =
        cleanEdges ctx fuel rest ps st) ∧
    (∀ (fuel nid : Nat) (ps : PlanState) (st : ScanState)
       (res : PlanState × ScanState),
      cleanNode ctx fuel nid ps st = some res →
      (st.edges eP).depsMissing = true →
      res.2.edges = st.edges ∧
      (wantLookup ps eP = some true → wantLookup res.1 eP = some true) ∧
      (nid ∉ (st.edges eP).outputs →
       (∀ ej, ej ≠ eP → ∀ o ∈ (st.edges ej).outputs,
         o ∉ (st.edges eP).outputs) →
       ∀ o ∈ (st.edges eP).outputs,
         (res.2.nodes o).dirty = (st.nodes o).dirty)) := by
  constructor
  · intro fuel rest ps st hw hdm
    rw [cleanEdges, if_neg (by simp [hw]), if_pos hdm]
  · intro fuel nid ps st res h hdm
    exact (cleanNode_protects ctx eP fuel).1 nid ps st res h hdm

/-- Witness for C9 at the deps-missing consumer edge: the iteration
skips it outright, and the full `CleanNode` call keeps its want entry,
the edges and its output's dirty bit. -/
theorem cleanNode_skips_deps_missing_witness :
    cleanEdges (mkCtx none) 1 [0] c9Ps c9StClean =
      cleanEdges (mkCtx none) 0 [] c9Ps c9StClean ∧
    c9StClean.edges = c9St.edges ∧
    wantLookup c9Ps 0 = some true ∧
    (c9StClean.nodes 1).dirty = (c9St.nodes 1).dirty := by
  have H := cleanNode_skips_deps_missing (mkCtx none) 0
  have hrun : cleanNode (mkCtx none) 2 0 c9Ps c9St = some (c9Ps, c9StClean) := rfl
  have H2 := H.2 2 0 c9Ps c9St (c9Ps, c9StClean) hrun (by decide)
  exact ⟨H.1 0 [] c9Ps c9StClean (by decide) (by decide), H2.1,
    H2.2.1 (by decide),
    H2.2.2 (by decide)
      (fun ej hne o ho => by simp [c9St, c9Edges, hne] at ho) 1 (by decide)⟩


/-! ## Claim C10: OpenForWrite under dry_run is a no-op -/

/--
C10.  With `dry_run` set in the build configuration, `OpenForWrite`
reports success, opens nothing, writes nothing and performs no pending
recompaction: the log state (including `needs_recompaction_` and the
closed file handle) and the file system are returned unchanged.
-/
theorem openForWrite_dryRun_noop (config : BuildConfigData) (bl : BuildLogState)
    (fs : FileSys) (path : String) (h : config.dryRun = true) :
    openForWrite (some config) bl fs path = (true, bl, fs) := by
  rw [openForWrite]
  simp [h]

/-- Witness for C10 at a concrete pending-recompaction state. -/
theorem openForWrite_dryRun_noop_witness :
    (({ dryRun := true } : BuildConfigData).dryRun = true) ∧
    openForWrite (some { dryRun := true })
        { entries := [{ output := "o" }], needsRecompaction := true }
        ⟨fun _ => none⟩ ".ninja_log" =
      (true, { entries := [{ output := "o" }], needsRecompaction := true },
       ⟨fun _ => none⟩) :=
  ⟨rfl, openForWrite_dryRun_noop { dryRun := true }
    { entries := [{ output := "o" }], needsRecompaction := true }
    ⟨fun _ => none⟩ ".ninja_log" rfl⟩

end Ninja
